import Mathlib

/-! # Verification of the zendit bank-statement parsing pipeline

Shallow embedding of the core PDF-statement parsing and enrichment code:
* `src/lib/parsers/icici.ts` (`extractTransactionsFromPage`)
* `src/lib/parsers/helpers.ts` (date parsing, categorization, merchant
  extraction, tag generation, conversion to the `Transaction` interface)
* `src/lib/ml/preprocessor.ts` (`MLTransactionPipeline`) and
  `src/lib/ml/base.ts` (`createMLConfidence`, `shouldUseMlResult`)
* the "lenient" helper variants (`categorizeTransaction`, `generateTags`,
  `isPersonalTransfer`) of the alternative helpers module.

JavaScript numbers are modelled as `ℚ`, JavaScript strings as Lean
`String` (operating on the underlying `List Char`; the statements in this
domain are ASCII so UTF-16 length = char count).  Thrown exceptions are
modelled with `Except String`.
-/

namespace Zendit

/-- Decidable equality for `Except` results. -/
instance {ε α : Type} [DecidableEq ε] [DecidableEq α] :
    DecidableEq (Except ε α) := fun
  | .ok a, .ok b =>
    if h : a = b then .isTrue (by rw [h])
    else .isFalse (by intro he; cases he; exact h rfl)
  | .ok _, .error _ => .isFalse (by intro h; cases h)
  | .error _, .ok _ => .isFalse (by intro h; cases h)
  | .error e, .error f =>
    if h : e = f then .isTrue (by rw [h])
    else .isFalse (by intro he; cases he; exact h rfl)

/-! ## Basic string utilities (models of the JS string primitives used) -/

/-- Model of JS `String.prototype.trim` (strip whitespace at both ends). -/
def jsTrim (s : String) : String :=
  ⟨(s.data.dropWhile Char.isWhitespace).reverse.dropWhile Char.isWhitespace |>.reverse⟩

/-- Model of JS `String.prototype.toLowerCase` on the ASCII domain. -/
def lowerStr (s : String) : String := ⟨s.data.map Char.toLower⟩

/-- Model of JS `String.prototype.toUpperCase` on the ASCII domain. -/
def upperStr (s : String) : String := ⟨s.data.map Char.toUpper⟩

/-- JS `String.prototype.length` (UTF-16 units; char count on ASCII). -/
def strLen (s : String) : ℕ := s.data.length

/-- Does `pat` occur at the beginning of `l` (case sensitively)? -/
def matchesAt : List Char → List Char → Bool
  | [], _ => true
  | _ :: _, [] => false
  | p :: ps, c :: cs => p = c && matchesAt ps cs

/-- Does `pat` occur somewhere in `hay` (case sensitively)? -/
def listHasRun (hay pat : List Char) : Bool :=
  match hay with
  | [] => matchesAt pat []
  | _ :: rest => matchesAt pat hay || listHasRun rest pat

/-- Model of JS `String.prototype.includes`. -/
def strIncludes (hay pat : String) : Bool := listHasRun hay.data pat.data

/-- Consume `pat` case-insensitively at the head of `l`; return the rest. -/
def eatStrCI : List Char → List Char → Option (List Char)
  | [], l => some l
  | _ :: _, [] => none
  | p :: ps, c :: cs => if p.toLower = c.toLower then eatStrCI ps cs else none

/-- Model of JS `String.prototype.split` on a character class (the
separators used in the source are `[-\/]`): splits into segments,
keeping empty segments, as JS does. -/
def splitOnSep (p : Char → Bool) : List Char → List (List Char)
  | [] => [[]]
  | c :: rest =>
    if p c then [] :: splitOnSep p rest
    else
      match splitOnSep p rest with
      | seg :: segs => (c :: seg) :: segs
      | [] => [[c]]

/-- JS-style split returning strings. -/
def jsSplit (s : String) (p : Char → Bool) : List String :=
  (splitOnSep p s.data).map (fun l => ⟨l⟩)

/-- Value of a list of decimal digit characters. -/
def digitsToNat : List Char → ℕ
  | [] => 0
  | c :: cs => digitsToNat cs + c.toNat.sub 48 * 10 ^ cs.length

/-! ## Regex models for the segmenter patterns (`icici.ts`)

`datePattern = /^(\d{2}[-\/]\d{2}[-\/]\d{4})$/`
`amountPattern = /^(\d{1,3}(?:,\d{3})*(?:\.\d{2})?)$|^(\d+\.?\d*)$/`
`typePattern = /^(DR|CR)$/` -/

def isSep (c : Char) : Bool := c = '-' || c = '/'

/-- Model of `datePattern.test`. -/
def datePattern (s : String) : Bool :=
  match s.data with
  | [d1, d2, s1, m1, m2, s2, y1, y2, y3, y4] =>
    d1.isDigit && d2.isDigit && isSep s1 && m1.isDigit && m2.isDigit &&
    isSep s2 && y1.isDigit && y2.isDigit && y3.isDigit && y4.isDigit
  | _ => false

/-- Tail `(?:,\d{3})*` of the first `amountPattern` alternative. -/
def commaGroups : List Char → Bool
  | [] => true
  | ',' :: d1 :: d2 :: d3 :: rest =>
    d1.isDigit && d2.isDigit && d3.isDigit && commaGroups rest
  | _ => false

/-- Split a char list at the first `','` or `'.'`-like boundary: here we
take the longest leading digit run.  Helper for `amountPattern`. -/
def leadDigits (l : List Char) : List Char × List Char :=
  (l.takeWhile Char.isDigit, l.dropWhile Char.isDigit)

/-- First alternative: `^\d{1,3}(?:,\d{3})*(?:\.\d{2})?$`. -/
def amountAlt1 (l : List Char) : Bool :=
  let (ds, rest) := leadDigits l
  (1 ≤ ds.length && ds.length ≤ 3) &&
  (let n := rest.takeWhile (fun c => c = ',' || c.isDigit)
   let tail := rest.drop n.length
   commaGroups n &&
   (match tail with
    | [] => true
    | '.' :: f1 :: f2 :: [] => f1.isDigit && f2.isDigit
    | _ => false))

/-- Second alternative: `^\d+\.?\d*$`. -/
def amountAlt2 (l : List Char) : Bool :=
  let (ds, rest) := leadDigits l
  ds.length ≥ 1 &&
  (match rest with
   | [] => true
   | '.' :: fs => fs.all Char.isDigit
   | _ => false)

/-- Model of `amountPattern.test`. -/
def amountPattern (s : String) : Bool :=
  amountAlt1 s.data || amountAlt2 s.data

/-- Model of `typePattern.test` (`/^(DR|CR)$/`). -/
def typePattern (s : String) : Bool := s = "DR" || s = "CR"

/-- Kernel-evaluable rational addition (`Rat.add` is sealed); proved
equal to `+` in `qAdd_eq` below. -/
def qAdd (a b : ℚ) : ℚ :=
  mkRat (a.num * b.den + b.num * a.den) (a.den * b.den)

/-- Kernel-evaluable rational subtraction; proved equal to `-` in
`qSub_eq` below. -/
def qSub (a b : ℚ) : ℚ :=
  mkRat (a.num * b.den - b.num * a.den) (a.den * b.den)

/-- Kernel-evaluable rational multiplication; proved equal to `*` in
`qMul_eq` below. -/
def qMul (a b : ℚ) : ℚ := mkRat (a.num * b.num) (a.den * b.den)

/-- Kernel-evaluable rational absolute value; proved equal to `|·|` in
`qAbs_eq` below. -/
def qAbs (q : ℚ) : ℚ := mkRat q.num.natAbs q.den

/-- Model of `parseFloat(text.replace(/,/g, ""))` on a string matching
`amountPattern`: strip commas, read `int[.frac]` as the exact rational
`int + frac / 10 ^ |frac|` (written over a common denominator so that
it evaluates; `parseAmount_eq` below gives the sum-of-parts form). -/
def parseAmount (s : String) : ℚ :=
  let cs := s.data.filter (fun c => c ≠ ',')
  let (ip, rest) := leadDigits cs
  let fp := (rest.drop 1).takeWhile Char.isDigit
  mkRat (digitsToNat ip * 10 ^ fp.length + digitsToNat fp) (10 ^ fp.length)

/-! ## Text Normalizer (`helpers.ts`: `isSystemText`, `cleanDescription`) -/

/-- Consume one or more whitespace chars (`\s+`), maximal munch. -/
def eatWS1 (l : List Char) : Option (List Char) :=
  let ws := l.takeWhile Char.isWhitespace
  if ws.length ≥ 1 then some (l.drop ws.length) else none

/-- Consume zero or more whitespace chars (`\s*`), maximal munch. -/
def eatWS0 (l : List Char) : List Char := l.dropWhile Char.isWhitespace

/-- Consume one or more digits (`\d+`), maximal munch. -/
def eatDigits1 (l : List Char) : Option (List Char) :=
  let ds := l.takeWhile Char.isDigit
  if ds.length ≥ 1 then some (l.drop ds.length) else none

/-- Consume exactly `n` digits (`\d{n}`). -/
def eatDigitsN : ℕ → List Char → Option (List Char)
  | 0, l => some l
  | _ + 1, [] => none
  | n + 1, c :: cs => if c.isDigit then eatDigitsN n cs else none

/-- Does `f` match some suffix of `l` (i.e. the regex occurs anywhere)? -/
def anyPos (f : List Char → Bool) : List Char → Bool
  | [] => f []
  | l@(_ :: rest) => f l || anyPos f rest

/-- Regex `/^This is a system-generated/i`. -/
def sysPat1 (l : List Char) : Bool :=
  (eatStrCI "This is a system-generated".data l).isSome

/-- Regex `/Hence, it does not require/i`. -/
def sysPat2 (l : List Char) : Bool :=
  anyPos (fun l => (eatStrCI "Hence, it does not require".data l).isSome) l

/-- Regex `/any signature/i`. -/
def sysPat3 (l : List Char) : Bool :=
  anyPos (fun l => (eatStrCI "any signature".data l).isSome) l

/-- Regex `/Page \d+$/i`. -/
def sysPat4 (l : List Char) : Bool :=
  anyPos (fun l =>
    match eatStrCI "Page ".data l with
    | some r => match eatDigits1 r with
      | some r2 => r2 = []
      | none => false
    | none => false) l

/-- Regex `/signature\.\s*Page/i`. -/
def sysPat5 (l : List Char) : Bool :=
  anyPos (fun l =>
    match eatStrCI "signature.".data l with
    | some r => (eatStrCI "Page".data (eatWS0 r)).isSome
    | none => false) l

/-- Regex `/Account Number/i`. -/
def sysPat6 (l : List Char) : Bool :=
  anyPos (fun l => (eatStrCI "Account Number".data l).isSome) l

/-- Regex `/Transaction date/i`. -/
def sysPat7 (l : List Char) : Bool :=
  anyPos (fun l => (eatStrCI "Transaction date".data l).isSome) l

/-- Regex `/Date\s*Description\s*Amount\s*Type/i`. -/
def sysPat8 (l : List Char) : Bool :=
  anyPos (fun l =>
    match eatStrCI "Date".data l with
    | some r1 =>
      match eatStrCI "Description".data (eatWS0 r1) with
      | some r2 =>
        match eatStrCI "Amount".data (eatWS0 r2) with
        | some r3 => (eatStrCI "Type".data (eatWS0 r3)).isSome
        | none => false
      | none => false
    | none => false) l

/-- Regex `/From \d{2}\/\d{2}\/\d{4} To \d{2}\/\d{2}\/\d{4}/i`. -/
def sysPat9 (l : List Char) : Bool :=
  anyPos (fun l =>
    match eatStrCI "From ".data l with
    | some r1 =>
      match eatDigitsN 2 r1 with
      | some ('/' :: r2) =>
        match eatDigitsN 2 r2 with
        | some ('/' :: r3) =>
          match eatDigitsN 4 r3 with
          | some r4 =>
            match eatStrCI " To ".data r4 with
            | some r5 =>
              match eatDigitsN 2 r5 with
              | some ('/' :: r6) =>
                match eatDigitsN 2 r6 with
                | some ('/' :: r7) => (eatDigitsN 4 r7).isSome
                | _ => false
              | _ => false
            | none => false
          | none => false
        | _ => false
      | _ => false
    | none => false) l

/-- Model of `isSystemText` (`helpers.ts`): one line tested against the
fixed boilerplate/header signatures. -/
def isSystemText (text : String) : Bool :=
  sysPat1 text.data || sysPat2 text.data || sysPat3 text.data ||
  sysPat4 text.data || sysPat5 text.data || sysPat6 text.data ||
  sysPat7 text.data || sysPat8 text.data || sysPat9 text.data

/-- Global leftmost-match replace-by-empty: at each position try the
matcher (which must consume at least one char on success); on a match,
drop the matched chars, else keep one char.  Fueled for termination;
`replaceAll` supplies sufficient fuel. -/
def replAux (try1 : List Char → Option (List Char)) : ℕ → List Char → List Char
  | 0, l => l
  | _ + 1, [] => []
  | fuel + 1, l@(c :: rest) =>
    match try1 l with
    | some r => replAux try1 fuel r
    | none => c :: replAux try1 fuel rest

/-- Replace every (leftmost, non-overlapping) match of `try1` by `""`. -/
def replaceAll (try1 : List Char → Option (List Char)) (l : List Char) : List Char :=
  replAux try1 (l.length + 1) l

/-- Matcher for `/This is a system-generated statement\.?\s*/gi`. -/
def cleanPat1 (l : List Char) : Option (List Char) :=
  match eatStrCI "This is a system-generated statement".data l with
  | some r =>
    let r1 := match r with | '.' :: t => t | _ => r
    some (eatWS0 r1)
  | none => none

/-- Matcher for `/Hence,?\s*it does not require any signature\.?\s*/gi`. -/
def cleanPat2 (l : List Char) : Option (List Char) :=
  match eatStrCI "Hence".data l with
  | some r =>
    let r1 := match r with | ',' :: t => t | _ => r
    match eatStrCI "it does not require any signature".data (eatWS0 r1) with
    | some r2 =>
      let r3 := match r2 with | '.' :: t => t | _ => r2
      some (eatWS0 r3)
    | none => none
  | none => none

/-- Matcher for `/\s*Page \d+\s*/gi`.  The leading `\s*` is taken with
maximal munch, which matches the regex semantics because `Page` starts
with a non-space character. -/
def cleanPat3 (l : List Char) : Option (List Char) :=
  let r0 := eatWS0 l
  -- the overall match must consume at least one char: it always does,
  -- because `"Page "` is consumed on success
  match eatStrCI "Page ".data r0 with
  | some r1 =>
    match eatDigits1 r1 with
    | some r2 => some (eatWS0 r2)
    | none => none
  | none => none

/-- Matcher for `/signature\.\s*Page\s*\d+/gi`. -/
def cleanPat4 (l : List Char) : Option (List Char) :=
  match eatStrCI "signature.".data l with
  | some r1 =>
    match eatStrCI "Page".data (eatWS0 r1) with
    | some r2 => eatDigits1 (eatWS0 r2)
    | none => none
  | none => none

/-- Strip the trailing run of forward slashes (the `/\/+$/` replace). -/
def stripTrailingSlashes (l : List Char) : List Char :=
  (l.reverse.dropWhile (fun c => c = '/')).reverse

/-- Helper for `collapseWS`: the flag records whether the previous
character was inside a whitespace run already replaced. -/
def collapseWSAux : Bool → List Char → List Char
  | _, [] => []
  | inWS, c :: rest =>
    if c.isWhitespace then
      if inWS then collapseWSAux true rest else ' ' :: collapseWSAux true rest
    else c :: collapseWSAux false rest

/-- Collapse every whitespace run to one space (the `/\s+/g` replace). -/
def collapseWS (l : List Char) : List Char := collapseWSAux false l

/-- Model of `cleanDescription` (`helpers.ts`): strip the fixed
boilerplate phrases, trailing slashes, collapse whitespace, trim. -/
def cleanDescription (description : String) : String :=
  let l1 := replaceAll cleanPat1 description.data
  let l2 := replaceAll cleanPat2 l1
  let l3 := replaceAll cleanPat3 l2
  let l4 := replaceAll cleanPat4 l3
  let l5 := stripTrailingSlashes l4
  let l6 := collapseWS l5
  jsTrim ⟨l6⟩

/-! ## Date parsing (`helpers.ts`: `parseDate`)

A JS `Date` built by `Date.UTC(year, month - 1, day, 12, 0, 0, 0)` is
modelled by the calendar triple it denotes plus the fixed hour. -/

/-- The calendar value of a JS `Date` at noon UTC.  `month` is 1-based
here; the TS `getUTCMonth()` is `month - 1`. -/
structure JSDate where
  year : ℤ
  month : ℤ
  day : ℤ
  hour : ℤ
deriving DecidableEq, Repr

/-- Gregorian leap-year test (as implemented by JS `Date`). -/
def isLeapYear (y : ℤ) : Bool := (y % 4 = 0 && y % 100 ≠ 0) || y % 400 = 0

/-- Days in a month (1-based month; any other month value defaults to 31,
unreachable on the validated domain). -/
def daysInMonth (y m : ℤ) : ℤ :=
  if m = 2 then (if isLeapYear y then 29 else 28)
  else if m = 4 ∨ m = 6 ∨ m = 9 ∨ m = 11 then 30
  else 31

/-- Model of `new Date(Date.UTC(year, month - 1, day, 12, 0, 0, 0))` on
the domain the source guarantees before the call (`1 ≤ m ≤ 12`,
`1 ≤ d ≤ 31`): a day count exceeding the month length carries into the
next month, exactly as JS `Date.UTC` normalizes its arguments. -/
def jsDateUTC (y m d : ℤ) : JSDate :=
  if d ≤ daysInMonth y m then ⟨y, m, d, 12⟩
  else if m = 12 then ⟨y + 1, 1, d - daysInMonth y m, 12⟩
  else ⟨y, m + 1, d - daysInMonth y m, 12⟩

/-- Model of JS `Number(s)` on the date-part domain: digit-only strings
(the only shape produced by the date tokens this code feeds it) map to
their value, `""` to `0`, anything else to `NaN` (`none`). -/
def jsNumber (s : String) : Option ℤ :=
  let t := jsTrim s
  if t.data = [] then some 0
  else if t.data.all Char.isDigit then some (digitsToNat t.data : ℤ)
  else none

/-- The component-validation and round-trip part of `parseDate`, applied
to the three `Number`-converted parts.  Every internal `throw` is caught
and rethrown as `Invalid date format: …`, so all failures carry that
message. -/
def parseDateParts (dateStr : String) (day month year : Option ℤ) :
    Except String JSDate :=
  match day, month, year with
  | some d, some m, some y =>
    -- `!day || !month || !year || day < 1 || day > 31 || month < 1 ||
    --  month > 12 || year < 1900` (`!n` is true for `0` and `NaN`)
    if d = 0 ∨ m = 0 ∨ y = 0 ∨ d < 1 ∨ d > 31 ∨ m < 1 ∨ m > 12 ∨ y < 1900 then
      .error s!"Invalid date format: {dateStr}"
    else
      let date := jsDateUTC y m d
      -- `date.getUTCDate() !== day || date.getUTCMonth() !== month - 1 ||
      --  date.getUTCFullYear() !== year`
      if date.day ≠ d ∨ date.month ≠ m ∨ date.year ≠ y then
        .error s!"Invalid date format: {dateStr}"
      else .ok date
  | _, _, _ => .error s!"Invalid date format: {dateStr}"

/-- Model of `parseDate` (`helpers.ts`): split on `[-\/]`, convert the
parts with `Number`, validate, build the date at noon UTC, check the
round trip. -/
def parseDate (dateStr : String) : Except String JSDate :=
  match (jsSplit dateStr isSep).map jsNumber with
  | [d, m, y] => parseDateParts dateStr d m y
  | _ => .error s!"Invalid date format: {dateStr}"

/-! ## Row Reconstructor and Transaction Segmenter (`icici.ts`:
`extractTransactionsFromPage`) -/

/-- A positioned text fragment: `item.str`, `item.transform[4]` (x) and
`item.transform[5]` (y). -/
structure Frag where
  str : String
  x : ℚ
  y : ℚ
deriving DecidableEq, Repr

/-- Default fragment (for `headD`/`getLastD` in statements only). -/
def defFrag : Frag := ⟨"", 0, 0⟩

/-- Model of JS `Math.round` (round half toward +∞):
`⌊q + 1/2⌋`, see `jsRound_eq` below. -/
def jsRound (q : ℚ) : ℤ := ⌊qAdd q (mkRat 1 2)⌋

/-- The sort comparator of `extractTransactionsFromPage` as a `≤` test:
`cmp(a,b) ≤ 0` where `cmp` returns `b.y - a.y` when `|Δy| > 3` and
`a.x - b.x` otherwise. -/
def fragLe (a b : Frag) : Bool :=
  if qAbs (qSub a.y b.y) > 3 then b.y ≤ a.y else a.x ≤ b.x

/-- Stable insertion of `f` after every `x` with `fragLe x f`. -/
def insertSorted (f : Frag) : List Frag → List Frag
  | [] => [f]
  | x :: xs => if fragLe x f then x :: insertSorted f xs else f :: x :: xs

/-- Model of `items.sort(comparator)`.  JS sort is stable; for a
consistent comparator every stable sort agrees, and we fix stable
insertion sort as the embedding. -/
def sortFrags (items : List Frag) : List Frag :=
  items.foldl (fun acc f => insertSorted f acc) []

/-- The row-grouping loop: `rows`/`currentRow`/`lastY` state, tolerance
`Y_TOLERANCE = 5`, sentinel `lastY = -1`. -/
def groupLoop : List Frag → List (List Frag) → List Frag → ℤ → List (List Frag)
  | [], rows, currentRow, _ =>
    if currentRow.isEmpty then rows else rows ++ [currentRow]
  | f :: rest, rows, currentRow, lastY =>
    let y := jsRound f.y
    if lastY = -1 ∨ |y - lastY| ≤ 5 then
      groupLoop rest rows (currentRow ++ [f]) y
    else
      groupLoop rest (if currentRow.isEmpty then rows else rows ++ [currentRow]) [f] y

/-- Group the (already sorted) fragments into rows. -/
def groupRows (l : List Frag) : List (List Frag) := groupLoop l [] [] (-1)

/-- Per-row token preparation: trim each fragment, drop empty and
system-text tokens. -/
def rowTextOf (row : List Frag) : List String :=
  (row.map (fun f => jsTrim f.str)).filter
    (fun s => strLen s > 0 && !isSystemText s)

/-- Debit/credit marker. -/
inductive TType | DR | CR
deriving DecidableEq, Repr

/-- Cast `text as "DR" | "CR"` for a token matching `typePattern`. -/
def parseTType (s : String) : TType := if s = "CR" then TType.CR else TType.DR

/-- The open (not yet finalized) transaction record of the segmenter. -/
structure OpenTx where
  date : String
  descriptionParts : List String
  amount : Option ℚ
  type : Option TType
deriving DecidableEq, Repr

/-- JS truthiness of the optional numeric `amount` (`undefined` and `0`
are falsy). -/
def amountTruthy : Option ℚ → Bool
  | none => false
  | some a => a ≠ 0

/-- A finalized raw transaction record. -/
structure ParsedTransaction where
  date : String
  description : String
  amount : ℚ
  type : TType
deriving DecidableEq, Repr

/-- Index search `rowText.findIndex((text) => datePattern.test(text))`, as an
`Option`. -/
def findDateIdx : List String → Option ℕ
  | [] => none
  | s :: rest =>
    if datePattern s then some 0 else (findDateIdx rest).map (· + 1)

/-- The header-row token scan (new-transaction branch): skip the date
index; a type token overwrites `type`; an amount token fills `amount`
only while `amount` is falsy; other tokens of length > 1 join the
description. -/
def headerScanAux (dateIndex : ℕ) :
    ℕ → List String → List String × Option ℚ × Option TType →
    List String × Option ℚ × Option TType
  | _, [], st => st
  | i, text :: rest, (parts, amount, ty) =>
    let st' :=
      if i = dateIndex then (parts, amount, ty)
      else if typePattern text then (parts, amount, some (parseTType text))
      else if amountPattern text && !amountTruthy amount then
        (parts, some (parseAmount text), ty)
      else if text ≠ "" ∧ strLen text > 1 then (parts ++ [text], amount, ty)
      else (parts, amount, ty)
    headerScanAux dateIndex (i + 1) rest st'

/-- Open a new record from a header row whose date token sits at
`dateIndex`. -/
def scanHeader (rowText : List String) (dateIndex : ℕ) : OpenTx :=
  let st := headerScanAux dateIndex 0 rowText ([], none, none)
  ⟨rowText.getD dateIndex "", st.1, st.2.1, st.2.2⟩

/-- One continuation-row token: fill `type`/`amount` only if still
unset/falsy, append other long tokens to the description. -/
def contScanStep (st : OpenTx) (text : String) : OpenTx :=
  if typePattern text && (st.type = none) then
    { st with type := some (parseTType text) }
  else if amountPattern text && !amountTruthy st.amount then
    { st with amount := some (parseAmount text) }
  else if text ≠ "" ∧ strLen text > 1 ∧ !typePattern text ∧ !amountPattern text then
    { st with descriptionParts := st.descriptionParts ++ [text] }
  else st

/-- Continuation-row scan. -/
def contScan (st : OpenTx) (rowText : List String) : OpenTx :=
  rowText.foldl contScanStep st

/-- Join of the description parts with single spaces. -/
def joinParts : List String → String
  | [] => ""
  | [s] => s
  | s :: rest => s ++ " " ++ joinParts rest

/-- Computes `cleanDescription(parts.join(" ").replace(/\s+/g, " ").trim())`. -/
def finalDescription (c : OpenTx) : String :=
  cleanDescription (jsTrim ⟨collapseWS (joinParts c.descriptionParts).data⟩)

/-- Finalization: push the record only when `date` and `amount` are
truthy and the cleaned description is non-empty; a never-seen type
defaults to `DR`. -/
def finalizeTx (c : OpenTx) : List ParsedTransaction :=
  match c.amount with
  | some a =>
    if c.date ≠ "" ∧ a ≠ 0 then
      if strLen (finalDescription c) > 0 then
        [⟨c.date, finalDescription c, a, c.type.getD TType.DR⟩]
      else []
    else []
  | none => []

/-- The row loop of `extractTransactionsFromPage`, over the prepared
row-token lists, carrying the open record. -/
def segmentRows : List (List String) → Option OpenTx → List ParsedTransaction
  | [], cur =>
    match cur with
    | some c => finalizeTx c
    | none => []
  | rowText :: rest, cur =>
    if rowText.isEmpty then segmentRows rest cur
    else
      match findDateIdx rowText with
      | some di =>
        (match cur with
         | some c => finalizeTx c
         | none => []) ++ segmentRows rest (some (scanHeader rowText di))
      | none =>
        match cur with
        | some c => segmentRows rest (some (contScan c rowText))
        | none => segmentRows rest none

/-- Segment a list of reconstructed rows into raw transaction records. -/
def extractFromRows (rows : List (List Frag)) : List ParsedTransaction :=
  segmentRows (rows.map rowTextOf) none

/-- Model of `extractTransactionsFromPage`: sort the page's fragments,
reconstruct rows, segment into raw transaction records. -/
def extractTransactionsFromPage (items : List Frag) : List ParsedTransaction :=
  extractFromRows (groupRows (sortFrags items))

/-! ## Merchant extraction (`helpers.ts`, strict variant) -/

/-- A merchant pattern: either a one-capture pattern
`TAG([^\/]+)(?:\/.*)?$` taking group 1, or a two-capture pattern
`TAG([^\/]+)\/([^\/]+)` taking group 2 (`TAG` is e.g. `UPI\/`, matched
case-insensitively and unanchored). -/
inductive MPat
  | cap1 (tag : String)
  | cap2 (tag : String)
deriving DecidableEq, Repr

/-- Table `UPI_MERCHANT_PATTERNS` (strict list): `UPI\/([^\/]+)(?:\/.*)?$` g1,
`IMPS\/([^\/]+)\/([^\/]+)` g2, `NEFT…` g2, `RTGS…` g2,
`BIL\/([^\/]+)(?:\/.*)?$` g1. -/
def UPI_MERCHANT_PATTERNS : List MPat :=
  [.cap1 "UPI/", .cap2 "IMPS/", .cap2 "NEFT/", .cap2 "RTGS/", .cap1 "BIL/"]

/-- Leftmost match of `tag([^\/]+)(?:\/.*)?$`: at the first position
where `tag` matches (case-insensitively) followed by at least one
non-slash character, capture the run up to the next slash or the end. -/
def findCap1 (tag : List Char) : List Char → Option (List Char)
  | [] => none
  | l@(_ :: rest) =>
    match eatStrCI tag l with
    | some after =>
      let g := after.takeWhile (fun c => c ≠ '/')
      if g.isEmpty then findCap1 tag rest else some g
    | none => findCap1 tag rest

/-- Leftmost match of `tag([^\/]+)\/([^\/]+)`, returning group 2. -/
def findCap2 (tag : List Char) : List Char → Option (List Char)
  | [] => none
  | l@(_ :: rest) =>
    match eatStrCI tag l with
    | some after =>
      let g1 := after.takeWhile (fun c => c ≠ '/')
      if g1.isEmpty then findCap2 tag rest
      else
        match after.drop g1.length with
        | '/' :: r2 =>
          let g2 := r2.takeWhile (fun c => c ≠ '/')
          if g2.isEmpty then findCap2 tag rest else some g2
        | _ => findCap2 tag rest
    | none => findCap2 tag rest

/-- Run one merchant pattern against a description; `some` holds the
(non-empty) extracted group, i.e. the truthy `match[extractGroup]`. -/
def runMPat (p : MPat) (desc : String) : Option String :=
  match p with
  | .cap1 tag => (findCap1 tag.data desc.data).map (fun l => ⟨l⟩)
  | .cap2 tag => (findCap2 tag.data desc.data).map (fun l => ⟨l⟩)

/-- Table `MERCHANT_NORMALIZATIONS` (strict brand table), as an association
list (JS object keys are unique). -/
def MERCHANT_NORMALIZATIONS : List (String × String) :=
  [("SWIGGY", "Swiggy"), ("SWIGGYINST", "Swiggy Instamart"),
   ("SWIGGYINSTAMAR", "Swiggy Instamart"), ("ZOMATO", "Zomato"),
   ("NETFLIX", "Netflix"), ("NETFLIX CO", "Netflix"),
   ("AMAZON", "Amazon"), ("FLIPKART", "Flipkart"), ("MYNTRA", "Myntra"),
   ("AJIO", "Ajio"), ("PAYTM", "Paytm"), ("PHONEPE", "PhonePe"),
   ("GPAY", "Google Pay"), ("GOOGLE IND", "Google"),
   ("GOOGLE INDIA", "Google"), ("UBER", "Uber"), ("OLA", "Ola"),
   ("PVR INOX", "PVR Inox"), ("PVR INOX L", "PVR Inox")]

/-- Model of `normalizeMerchantName` (strict variant): exact upper-cased
lookup, otherwise the trimmed input unchanged. -/
def normalizeMerchantName (name : String)
    (normalizations : List (String × String)) : String :=
  let upperName := upperStr name
  match normalizations.find? (fun p => p.1 = upperName) with
  | some p => p.2
  | none => jsTrim name

/-- Try the patterns in order; the first one whose captured group trims
to more than 2 characters wins (shorter captures fall through to the
next pattern, as in the source loop). -/
def extractMerchantGo : List MPat → String → Option String
  | [], _ => none
  | p :: ps, cleanDesc =>
    match runMPat p cleanDesc with
    | some g =>
      let merchant := jsTrim g
      if merchant ≠ "" ∧ strLen merchant > 2 then
        some (normalizeMerchantName merchant MERCHANT_NORMALIZATIONS)
      else extractMerchantGo ps cleanDesc
    | none => extractMerchantGo ps cleanDesc

/-- Model of `extractMerchant` (strict variant): patterns first, no
fallback — `"Unknown"` when nothing definitive matches. -/
def extractMerchant (description : String) : String :=
  match extractMerchantGo UPI_MERCHANT_PATTERNS (jsTrim description) with
  | some m => m
  | none => "Unknown"

/-! ## Categorization (`helpers.ts`, strict variant) -/

/-- The `amountThreshold` of a category rule. -/
structure Threshold where
  min : Option ℚ
  max : Option ℚ
deriving DecidableEq, Repr

/-- A category rule. -/
structure CategoryRule where
  keywords : List String
  merchantKeywords : Option (List String)
  category : String
  subcategory : Option String
  isRecurring : Option Bool
  amountThreshold : Option Threshold
deriving DecidableEq, Repr

/-- Table `DEFAULT_CATEGORY_RULES` (strict list). -/
def DEFAULT_CATEGORY_RULES : List CategoryRule :=
  [⟨[], some ["swiggy", "swiggy instamart", "zomato"], "Food & Dining",
     some "Food Delivery", some false, none⟩,
   ⟨[], some ["netflix"], "Entertainment", some "Streaming Services",
     some true, none⟩,
   ⟨[], some ["pvr inox"], "Entertainment", some "Movies", some false, none⟩,
   ⟨[], some ["amazon", "flipkart", "myntra", "ajio"], "Shopping",
     some "Online Shopping", some false, none⟩,
   ⟨[], some ["uber", "ola"], "Transportation", none, some false, none⟩,
   ⟨[], some ["paytm", "phonepe", "google pay"], "Transfer",
     some "Digital Wallet", some false, none⟩,
   ⟨["atm withdrawal", "cash withdrawal"], some [], "Cash & ATM", none,
     some false, none⟩,
   ⟨["emi", "loan emi", "personal loan"], some [], "Finance",
     some "Loans & EMI", some true, none⟩]

/-- Amount-threshold test, with JS truthiness on the bounds (`min: 0`
would be falsy and thus skipped, like `undefined`). -/
def matchesAmountRule (rule : CategoryRule) (amount : ℚ) : Bool :=
  match rule.amountThreshold with
  | none => true
  | some th =>
    (match th.min with
     | none => true
     | some mn => mn = 0 || amount ≥ mn) &&
    (match th.max with
     | none => true
     | some mx => mx = 0 || amount ≤ mx)

/-- The strict per-rule match test, on the lower-cased description and
merchant: exact/substring merchant-keyword hit, or a description
keyword hit, and the amount threshold. -/
def ruleMatches (rule : CategoryRule) (desc merch : String) (amount : ℚ) : Bool :=
  let matchesMerchantKeywords :=
    match rule.merchantKeywords with
    | some ks => ks.any (fun k => merch = lowerStr k || strIncludes merch (lowerStr k))
    | none => false
  let matchesKeywords := rule.keywords.any (fun k => strIncludes desc (lowerStr k))
  (matchesMerchantKeywords || matchesKeywords) && matchesAmountRule rule amount

/-- Model of `determinePaymentMethod`. -/
def determinePaymentMethod (description : String) : String :=
  let desc := lowerStr description
  if strIncludes desc "bhqr" || strIncludes desc "qr" then "QR Code"
  else if strIncludes desc "gpay" then "Google Pay"
  else if strIncludes desc "paytm" then "Paytm"
  else if strIncludes desc "phonepe" then "PhonePe"
  else if strIncludes desc "upi" then "UPI"
  else if strIncludes desc "card" then "Card"
  else if strIncludes desc "neft" || strIncludes desc "rtgs" then "Bank Transfer"
  else if strIncludes desc "bil/" then "Bill Payment"
  else if strIncludes desc "imps" then "IMPS"
  else "UPI"

/-- Result of `categorizeTransaction`. -/
structure CatResult where
  category : String
  subcategory : Option String
  paymentMethod : String
  isRecurring : Bool
deriving DecidableEq, Repr

/-- Model of `categorizeTransaction` (strict variant): first matching
rule wins, default `"Others"`. -/
def categorizeTransaction (description merchant : String) (amount : ℚ)
    (rules : List CategoryRule) : CatResult :=
  let desc := lowerStr description
  let merch := lowerStr merchant
  match rules.find? (fun rule => ruleMatches rule desc merch amount) with
  | some rule =>
    ⟨rule.category, rule.subcategory, determinePaymentMethod description,
     rule.isRecurring.getD false⟩
  | none => ⟨"Others", none, determinePaymentMethod description, false⟩

/-! ## Lenient categorization variant (alternative helpers module):
`isPersonalTransfer` and the richer `DEFAULT_CATEGORY_RULES` list. -/

/-- Test `/\d{4,}/.test`: does the string contain a run of ≥ 4 digits? -/
def hasDigitRun4 (s : String) : Bool :=
  anyPos (fun l => (l.takeWhile Char.isDigit).length ≥ 4) s.data

/-- Model of `isPersonalTransfer` (lenient variant). -/
def isPersonalTransfer (description merchant : String) : Bool :=
  let desc := lowerStr description
  let merch := lowerStr merchant
  if strIncludes desc "paytm-" || strIncludes desc "gpay-" ||
     strIncludes desc "phonepe" then true
  else
    let businessKeywords : List String :=
      ["pvt", "ltd", "co", "inc", "corp", "bank", "services", "solutions",
       "restaurant", "supermarket", "store", "cafe", "mall", "shop"]
    let hasBusinessKeyword := businessKeywords.any (fun k => strIncludes merch k)
    !hasBusinessKeyword && strLen merch < 25 && !strIncludes merch "@" &&
      !strIncludes merch "www" && !hasDigitRun4 merch

/-- The lenient `DEFAULT_CATEGORY_RULES` list. -/
def DEFAULT_CATEGORY_RULES_L : List CategoryRule :=
  [⟨["pvr", "inox", "cinema", "movie", "theatre", "theater"],
     some ["pvr inox", "pvr", "inox"], "Entertainment", some "Movies",
     some false, none⟩,
   ⟨["netflix", "prime", "spotify", "youtube", "hotstar", "zee5", "voot"],
     some ["netflix"], "Entertainment", some "Streaming Services",
     some true, none⟩,
   ⟨["swiggy", "zomato", "uber eats", "food delivery", "instamart"],
     some ["swiggy", "swiggy instamart", "zomato"], "Food & Dining",
     some "Food Delivery", some false, none⟩,
   ⟨["restaurant", "cafe", "dining", "hotel", "bar", "rest", "anbarasi",
      "lords", "malabar", "baawrchi"],
     some ["lords restaurant", "anbarasi restaurant", "d cafe",
           "malabar restaurant", "baawrchi"],
     "Food & Dining", some "Restaurant", some false, none⟩,
   ⟨["supermarket", "grocery", "haven", "lulu", "hypermarket"],
     some ["the haven supermarket", "lulu hypermarket"], "Shopping",
     some "Groceries", some false, none⟩,
   ⟨["amazon", "flipkart", "myntra", "ajio", "shopping", "mall", "store",
      "looks"],
     some ["my looks"], "Shopping", some "Online Shopping", some false, none⟩,
   ⟨["uber", "ola", "rapido", "taxi", "auto", "metro", "bus", "train",
      "ixigo"],
     some ["ixigo"], "Transportation", some "Travel Booking", some false,
     none⟩,
   ⟨["pest control", "goodcare", "skynet"],
     some ["good care pest control", "skynet solutions"], "Home & Services",
     some "Pest Control", some false, none⟩,
   ⟨["electricity", "water", "gas", "internet", "mobile", "phone",
      "broadband"],
     none, "Utilities", some "Bills", some true, none⟩,
   ⟨["medical", "hospital", "pharmacy", "doctor", "clinic", "health"],
     none, "Healthcare", none, some false, none⟩,
   ⟨["petrol", "diesel", "fuel", "hp", "bharat petroleum", "indian oil"],
     none, "Transportation", some "Fuel", some false, none⟩,
   ⟨["parking", "parkingboo"], some ["parking booking"], "Transportation",
     some "Parking", some false, none⟩,
   ⟨["atm", "cash", "withdrawal"], none, "Cash & ATM", none, some false,
     none⟩,
   ⟨["loan", "emi", "credit card", "personal loan"], none, "Finance",
     some "Loans & EMI", some true, none⟩]

/-- The lenient per-rule match test: keywords match against
`desc ++ " " ++ merch`, merchant keywords against either field. -/
def ruleMatchesL (rule : CategoryRule) (desc merch : String) (amount : ℚ) : Bool :=
  let combinedText := desc ++ " " ++ merch
  let matchesKeywords :=
    rule.keywords.any (fun k => strIncludes combinedText (lowerStr k))
  let matchesMerchantKeywords :=
    match rule.merchantKeywords with
    | some ks => ks.any (fun k =>
        strIncludes merch (lowerStr k) || strIncludes desc (lowerStr k))
    | none => false
  (matchesKeywords || matchesMerchantKeywords) && matchesAmountRule rule amount

/-- Model of the lenient `categorizeTransaction`: first matching rule,
then the personal-transfer heuristic, then `"Others"`. -/
def categorizeTransactionLenient (description merchant : String) (amount : ℚ)
    (rules : List CategoryRule) : CatResult :=
  let desc := lowerStr description
  let merch := lowerStr merchant
  match rules.find? (fun rule => ruleMatchesL rule desc merch amount) with
  | some rule =>
    ⟨rule.category, rule.subcategory, determinePaymentMethod description,
     rule.isRecurring.getD false⟩
  | none =>
    if isPersonalTransfer description merchant then
      ⟨"Transfer", some "Personal", determinePaymentMethod description, false⟩
    else ⟨"Others", none, determinePaymentMethod description, false⟩

/-! ## Tag generation (`helpers.ts` strict variant and the lenient
variant).  The JS `Set` (insertion-ordered, duplicate-free) is modelled
by append-if-absent. -/

/-- Model of `Set.add`: append if not already present. -/
def addTag (l : List String) (t : String) : List String :=
  if t ∈ l then l else l ++ [t]

/-- Apply a sequence of conditional `Set.add` steps in order. -/
def applyTagSteps (steps : List (Bool × String)) : List String :=
  steps.foldl (fun l step => if step.1 then addTag l step.2 else l) []

/-- The category base tag: `category.toLowerCase().replace(/[\s&]/g, "-")`. -/
def categorySlug (category : String) : String :=
  ⟨(lowerStr category).data.map (fun c => if c.isWhitespace || c = '&' then '-' else c)⟩

/-- JS truthiness of the optional `amount` argument. -/
def optAmountTruthy : Option ℚ → Bool
  | none => false
  | some a => a ≠ 0

/-- JS `%` on numbers: `a - b * trunc(a / b)` (remainder with the sign
of `a`).  `Int.tdiv` of the cross-multiplied numerator and denominator
of `a / b` is exactly the truncation of the quotient toward zero. -/
def jsMod (a b : ℚ) : ℚ :=
  qSub a (qMul b ((Int.tdiv (a.num * b.den) (b.num * a.den) : ℤ) : ℚ))

/-- The ordered conditional tag additions of `generateTags`
(strict variant; the `_merchant` argument is unused in the source). -/
def tagSteps (description category : String) (amount : Option ℚ) :
    List (Bool × String) :=
  let desc := lowerStr description
  let aOk := optAmountTruthy amount
  let a := amount.getD 0
  [(true, categorySlug category),
   (strIncludes desc "upi", "upi"),
   (strIncludes desc "neft", "neft"),
   (strIncludes desc "imps", "imps"),
   (strIncludes desc "rtgs", "rtgs"),
   (strIncludes desc "atm", "atm"),
   (strIncludes desc "hdfc", "hdfc-bank"),
   (strIncludes desc "icici", "icici-bank"),
   (strIncludes desc "axis", "axis-bank"),
   (strIncludes desc "sbi", "sbi-bank"),
   (strIncludes desc "withdrawal", "withdrawal"),
   (strIncludes desc "transfer", "transfer"),
   (strIncludes desc "payment", "payment"),
   (aOk && a ≥ 10000, "high-amount"),
   (aOk && a < 100, "small-amount"),
   (aOk && (jsMod a 100 = 0 && a ≥ 1000), "round-amount")]

/-- Model of `generateTags` (strict variant). -/
def generateTags (description _merchant category : String)
    (amount : Option ℚ) : List String :=
  (applyTagSteps (tagSteps description category amount)).filter
    (fun tag => strLen tag > 0)

/-- Collapse runs of `-` to a single `-` (the dash-run replace). -/
def collapseDashes : List Char → List Char
  | [] => []
  | '-' :: rest =>
    match collapseDashes rest with
    | '-' :: t => '-' :: t
    | t => '-' :: t
  | c :: rest => c :: collapseDashes rest

/-- The merchant slug of the lenient `generateTags`:
lower-case, non-alphanumeric → `-`, collapse `-` runs, strip edge `-`. -/
def merchantSlug (merchant : String) : String :=
  let l1 := (lowerStr merchant).data.map
    (fun c => if c.isLower || c.isDigit then c else '-')
  let l2 := collapseDashes l1
  let l3 := (l2.dropWhile (fun c => c = '-')).reverse.dropWhile (fun c => c = '-') |>.reverse
  ⟨l3⟩

/-- The ordered conditional tag additions of the lenient `generateTags`. -/
def tagStepsL (description merchant category : String) (amount : Option ℚ) :
    List (Bool × String) :=
  let desc := lowerStr description
  let merch := lowerStr merchant
  let aOk := optAmountTruthy amount
  let a := amount.getD 0
  let mtag := merchantSlug merchant
  [(true, categorySlug category),
   (strIncludes desc "bhqr", "qr-payment"),
   (strIncludes desc "upi", "upi"),
   (strIncludes desc "gpay", "google-pay"),
   (strIncludes desc "paytm", "paytm"),
   (strIncludes desc "neft", "neft"),
   (strIncludes desc "imps", "imps"),
   (strIncludes desc "rtgs", "rtgs"),
   (strIncludes desc "hdfc", "hdfc-bank"),
   (strIncludes desc "icici", "icici-bank"),
   (strIncludes desc "axis", "axis-bank"),
   (strIncludes desc "sbi" || strIncludes desc "state bank", "sbi-bank"),
   (strIncludes desc "yes bank", "yes-bank"),
   (strIncludes merch "swiggy", "food-delivery"),
   (strIncludes merch "swiggy" && strIncludes merch "instamart",
    "grocery-delivery"),
   (strIncludes merch "netflix" || strIncludes merch "prime" ||
      strIncludes merch "spotify", "subscription"),
   (strIncludes merch "netflix" || strIncludes merch "prime" ||
      strIncludes merch "spotify", "monthly-bill"),
   (strIncludes desc "emi" || strIncludes desc "loan", "recurring"),
   (strIncludes desc "emi" || strIncludes desc "loan", "loan-payment"),
   (aOk && a > 10000, "high-amount"),
   (aOk && a < 100, "small-amount"),
   (merchant ≠ "Unknown" && strLen merchant > 2 && strLen mtag > 1,
    "merchant-" ++ mtag)]

/-- Model of the lenient `generateTags`. -/
def generateTagsLenient (description merchant category : String)
    (amount : Option ℚ) : List String :=
  (applyTagSteps (tagStepsL description merchant category amount)).filter
    (fun tag => strLen tag > 0)

/-! ## Notes extraction (`helpers.ts`: `extractNotes`) -/

/-- Is `c` a hex digit as matched by `[a-f0-9]` under `/i`? -/
def isHexCI (c : Char) : Bool := c.isDigit || ('a' ≤ c.toLower && c.toLower ≤ 'f')

/-- Leftmost match of `/(ICI[a-f0-9]+)/i`, returning the matched text
in its original casing. -/
def findICI : List Char → Option (List Char)
  | [] => none
  | l@(_ :: rest) =>
    match l with
    | c1 :: c2 :: c3 :: r =>
      if c1.toLower = 'i' && c2.toLower = 'c' && c3.toLower = 'i' then
        let h := r.takeWhile isHexCI
        if h.isEmpty then findICI rest else some (c1 :: c2 :: c3 :: h)
      else findICI rest
    | _ => none

/-- JS `\w` (word character). -/
def isWordChar (c : Char) : Bool := c.isAlphanum || c = '_'

/-- Split into the maximal runs of word characters. -/
def wordRuns : List Char → List (List Char)
  | [] => []
  | c :: rest =>
    if isWordChar c then
      match wordRuns rest with
      | r :: rs =>
        match rest with
        | d :: _ => if isWordChar d then (c :: r) :: rs else [c] :: r :: rs
        | [] => [c] :: rs
      | [] => [[c]]
    else wordRuns rest

/-- Leftmost match of `/(\b[A-Z0-9]{10,}\b)/`: the first maximal word
run of length ≥ 10 made only of upper-case letters and digits. -/
def findRef (l : List Char) : Option (List Char) :=
  (wordRuns l).find? (fun r => r.length ≥ 10 && r.all (fun c => c.isUpper || c.isDigit))

/-- Model of `extractNotes`. -/
def extractNotes (description : String) : Option String :=
  match findICI description.data with
  | some m => some ("Transaction ID: " ++ (⟨m⟩ : String))
  | none =>
    match findRef description.data with
    | some m => some ("Reference: " ++ (⟨m⟩ : String))
    | none => none

/-! ## Conversion to the `Transaction` interface (`helpers.ts`:
`convertToTransactionInterface`).  `parseDate` can throw, and the map
callback does not catch, so the whole conversion is fallible; the
wall-clock `new Date()` is passed in as `now`. -/

inductive TxType | debit | credit
deriving DecidableEq, Repr

/-- The persisted `Transaction` record. -/
structure Transaction where
  id : String
  date : JSDate
  amount : ℚ
  description : String
  type : TxType
  category : String
  subcategory : Option String
  merchant : String
  account : String
  paymentMethod : String
  isRecurring : Bool
  tags : List String
  notes : Option String
  isVerified : Bool
  createdAt : JSDate
  updatedAt : JSDate
deriving DecidableEq, Repr

/-- Computes `tx.date.replace(/[-\/]/g, "")`. -/
def dateKeyOf (date : String) : String :=
  ⟨date.data.filter (fun c => !isSep c)⟩

/-- Convert one parsed transaction (the `map` callback, with its index). -/
def convertOne (accountNumber bankName : String) (now : JSDate) (index : ℕ)
    (tx : ParsedTransaction) : Except String Transaction :=
  let merchant := extractMerchant tx.description
  let categorization :=
    categorizeTransaction tx.description merchant tx.amount DEFAULT_CATEGORY_RULES
  let id := lowerStr bankName ++ "_" ++ accountNumber ++ "_" ++
    dateKeyOf tx.date ++ "_" ++ toString index
  match parseDate tx.date with
  | .error e => .error e
  | .ok date =>
    .ok
      { id := id
        date := date
        amount := tx.amount
        description := tx.description
        type := if tx.type = TType.DR then TxType.debit else TxType.credit
        category := categorization.category
        subcategory := categorization.subcategory
        merchant := merchant
        account := accountNumber
        paymentMethod := categorization.paymentMethod
        isRecurring := categorization.isRecurring
        tags := generateTags tx.description merchant categorization.category
          (some tx.amount)
        notes := extractNotes tx.description
        isVerified := false
        createdAt := now
        updatedAt := now }

/-- The indexed map over the parsed transactions; the first thrown
`parseDate` error aborts the whole call, as in JS. -/
def convertGo (accountNumber bankName : String) (now : JSDate) :
    ℕ → List ParsedTransaction → Except String (List Transaction)
  | _, [] => .ok []
  | i, tx :: rest =>
    match convertOne accountNumber bankName now i tx with
    | .error e => .error e
    | .ok t =>
      match convertGo accountNumber bankName now (i + 1) rest with
      | .error e => .error e
      | .ok ts => .ok (t :: ts)

/-- Model of `convertToTransactionInterface`. -/
def convertToTransactionInterface (parsedTransactions : List ParsedTransaction)
    (accountNumber bankName : String) (now : JSDate) :
    Except String (List Transaction) :=
  convertGo accountNumber bankName now 0 parsedTransactions

/-! ## ML pipeline (`ml/base.ts`, `ml/preprocessor.ts`:
`MLTransactionPipeline`)

The three service objects (`TransactionTextPreprocessor`,
`TransactionClassifier`, `EnhancedMerchantExtractor`) are external
NLP-driven collaborators of the pipeline; their observable behavior at
one call — readiness flags and the result or exception of each call —
is passed in as an oracle (`MLServices`), and the pipeline logic itself
is embedded faithfully. -/

inductive MLSource | ml | rules | hybrid
deriving DecidableEq, Repr

/-- A confidence score with provenance. -/
structure MLConfidence where
  score : ℚ
  source : MLSource
deriving DecidableEq, Repr

/-- Model of `createMLConfidence` (`base.ts`): clamp the score into
`[0, 1]`. -/
def createMLConfidence (score : ℚ) (source : MLSource) : MLConfidence :=
  ⟨max 0 (min 1 score), source⟩

/-- Model of `shouldUseMlResult` (`base.ts`). -/
def shouldUseMlResult (confidence : MLConfidence) (threshold : ℚ) : Bool :=
  confidence.score ≥ threshold

/-- Pipeline configuration. -/
structure MLServiceConfig where
  useML : Bool
  confidenceThreshold : ℚ
  fallbackToRules : Bool
deriving DecidableEq, Repr

/-- Table `DEFAULT_ML_CONFIG` (threshold 0.7). -/
def DEFAULT_ML_CONFIG : MLServiceConfig := ⟨true, mkRat 7 10, true⟩

/-- The preprocessed transaction as consumed downstream: only the
feature map is read by the pipeline (`determineRecurring`). -/
structure Preprocessed where
  features : String → ℚ

/-- Observable result of `this.classifier.classify(preprocessed)`. -/
structure ClassifyRes where
  category : String
  subcategory : Option String
  confidence : ℚ
  alternatives : List String

/-- Observable result of `this.merchantExtractor.extractMerchant(...)`. -/
structure MerchRes where
  merchant : String
  normalizedMerchant : String
  confidence : ℚ
  extractionMethod : String

/-- The oracle for one `enrichTransaction` call: readiness flags and
the outcome (value or thrown exception) of each service invocation. -/
structure MLServices where
  preReady : Bool
  clsReady : Bool
  extReady : Bool
  preprocessRes : Except Unit Preprocessed
  classifyRes : Except Unit ClassifyRes
  extractRes : Except Unit MerchRes

structure MLCategoryPrediction where
  category : String
  subcategory : Option String
  confidence : MLConfidence
  alternativeCategories : Option (List String)

structure MLMerchantPrediction where
  merchant : String
  normalizedMerchant : String
  confidence : MLConfidence
  extractionMethod : String

structure MLTransactionEnrichment where
  category : MLCategoryPrediction
  merchant : MLMerchantPrediction
  paymentMethod : String
  isRecurring : Bool
  tags : List String
  notes : Option String
  confidence : MLConfidence

/-- Model of `fallbackMerchantExtraction`: rule-based extraction with a
fixed rules-source confidence. -/
def fallbackMerchantExtraction (description : String) : MLMerchantPrediction :=
  let merchant := extractMerchant description
  let normalizedMerchant := normalizeMerchantName merchant MERCHANT_NORMALIZATIONS
  { merchant := merchant
    normalizedMerchant := normalizedMerchant
    confidence :=
      createMLConfidence (if merchant = "Unknown" then 3 / 10 else 6 / 10) .rules
    extractionMethod := if merchant = "Unknown" then "fallback" else "pattern" }

/-- Model of `fallbackClassification`: rule-based categorization with a
fixed rules-source confidence. -/
def fallbackClassification (description : String) (amount : ℚ) :
    MLCategoryPrediction :=
  let merchant := (fallbackMerchantExtraction description).merchant
  let result := categorizeTransaction description merchant amount DEFAULT_CATEGORY_RULES
  { category := result.category
    subcategory := result.subcategory
    confidence :=
      createMLConfidence (if result.category = "Others" then 4 / 10 else 7 / 10) .rules
    alternativeCategories := none }

/-- Model of `isTransactionRecurring` (keyword scan + category default). -/
def isTransactionRecurring (description category : String) : Bool :=
  let desc := lowerStr description
  ["monthly", "subscription", "emi", "loan", "netflix", "prime"].any
    (fun k => strIncludes desc k) ||
  (category = "Utilities" || category = "Finance")

/-- Model of `fallbackToRules`: the full rule-based enrichment with
fixed confidence `0.6` and source `"rules"`. -/
def fallbackToRules (description : String) (amount : ℚ) (_type : TxType) :
    MLTransactionEnrichment :=
  let merchantResult := fallbackMerchantExtraction description
  let categoryResult := fallbackClassification description amount
  let paymentMethod := determinePaymentMethod description
  let isRecurring := isTransactionRecurring description categoryResult.category
  let tags := generateTags description merchantResult.merchant
    categoryResult.category (some amount)
  let notes := extractNotes description
  { category := categoryResult
    merchant := merchantResult
    paymentMethod := paymentMethod
    isRecurring := isRecurring
    tags := tags
    notes := notes
    confidence := createMLConfidence (6 / 10) .rules }

/-- Model of `extractMerchantWithFallback`: try the ML extractor (its
exception is caught), gate by `shouldUseMlResult`, else fall back. -/
def extractMerchantWithFallback (cfg : MLServiceConfig) (svc : MLServices)
    (description : String) : MLMerchantPrediction :=
  let mlTry : Option MLMerchantPrediction :=
    if cfg.useML && svc.extReady then
      match svc.extractRes with
      | .ok r =>
        if shouldUseMlResult ⟨r.confidence, .ml⟩ cfg.confidenceThreshold then
          some
            { merchant := r.merchant
              normalizedMerchant := r.normalizedMerchant
              confidence := createMLConfidence r.confidence .ml
              extractionMethod := r.extractionMethod }
        else none
      | .error _ => none
    else none
  match mlTry with
  | some p => p
  | none =>
    if cfg.fallbackToRules then fallbackMerchantExtraction description
    else
      { merchant := "Unknown"
        normalizedMerchant := "Unknown"
        confidence := createMLConfidence (1 / 10) .rules
        extractionMethod := "fallback" }

/-- Model of `classifyWithFallback`: try the ML classifier (its
exception is caught), gate by `shouldUseMlResult`, else fall back. -/
def classifyWithFallback (cfg : MLServiceConfig) (svc : MLServices)
    (description : String) (amount : ℚ) : MLCategoryPrediction :=
  let mlTry : Option MLCategoryPrediction :=
    if cfg.useML && svc.clsReady then
      match svc.classifyRes with
      | .ok r =>
        if shouldUseMlResult ⟨r.confidence, .ml⟩ cfg.confidenceThreshold then
          some
            { category := r.category
              subcategory := r.subcategory
              confidence := createMLConfidence r.confidence .ml
              alternativeCategories := some r.alternatives }
        else none
      | .error _ => none
    else none
  match mlTry with
  | some p => p
  | none =>
    if cfg.fallbackToRules then fallbackClassification description amount
    else
      { category := "Others"
        subcategory := none
        confidence := createMLConfidence (3 / 10) .rules
        alternativeCategories := none }

/-- Model of `determineRecurring` (feature signals + category defaults).
JS truthiness of a numeric feature is `≠ 0`. -/
def determineRecurring (preprocessed : Preprocessed)
    (categoryResult : MLCategoryPrediction) : Bool :=
  let f := preprocessed.features
  if f "has_entertainment_keywords" ≠ 0 ∧ f "is_round_amount" ≠ 0 then true
  else if f "has_service_keywords" ≠ 0 ∧ f "is_medium_amount" ≠ 0 then true
  else if categoryResult.category = "Utilities" ∨
          categoryResult.category = "Finance" then true
  else if categoryResult.category = "Entertainment" ∧
          categoryResult.subcategory = some "Streaming Services" then true
  else false

/-- The ordered conditional additions of `generateEnhancedTags` on top
of the base rule tags. -/
def enhancedTagSteps (merchant : String) (amount : ℚ)
    (paymentMethod : String) : List (Bool × String) :=
  [(true, "ml-enhanced"),
   (paymentMethod = "UPI", "digital-payment"),
   (paymentMethod = "Card", "card-payment"),
   (amount > 10000, "high-value"),
   (jsMod amount 100 = 0 && amount ≥ 1000, "round-amount-large"),
   (merchant ≠ "Unknown" && strLen merchant > 2, "merchant-identified")]

/-- Model of `generateEnhancedTags`. -/
def generateEnhancedTags (description merchant category : String)
    (amount : ℚ) (paymentMethod : String) : List String :=
  let baseTags := generateTags description merchant category (some amount)
  (enhancedTagSteps merchant amount paymentMethod).foldl
    (fun l step => if step.1 then addTag l step.2 else l) baseTags

/-- Model of `calculateOverallConfidence`: weighted average (merchant
0.4, category 0.6); source `ml`/`rules` only when both components
agree, else `hybrid`. -/
def calculateOverallConfidence (merchantConfidence categoryConfidence :
    MLConfidence) : MLConfidence :=
  let overallScore :=
    merchantConfidence.score * (4 / 10) + categoryConfidence.score * (6 / 10)
  let source : MLSource :=
    if merchantConfidence.source = .ml ∧ categoryConfidence.source = .ml then .ml
    else if merchantConfidence.source = .rules ∧
            categoryConfidence.source = .rules then .rules
    else .hybrid
  createMLConfidence overallScore source

/-- Model of `enrichTransaction`: readiness gate, preprocessing (outer
try/catch → full rule fallback), the two gated concerns, then the
deterministic attributes and the fused confidence. -/
def enrichTransaction (cfg : MLServiceConfig) (svc : MLServices)
    (description : String) (amount : ℚ) (type : TxType) :
    MLTransactionEnrichment :=
  if !(svc.preReady && svc.clsReady && svc.extReady) then
    fallbackToRules description amount type
  else
    match svc.preprocessRes with
    | .error _ => fallbackToRules description amount type
    | .ok preprocessed =>
      let mlMerchantResult := extractMerchantWithFallback cfg svc description
      let mlCategoryResult := classifyWithFallback cfg svc description amount
      let paymentMethod := determinePaymentMethod description
      let isRecurring := determineRecurring preprocessed mlCategoryResult
      let tags := generateEnhancedTags description mlMerchantResult.merchant
        mlCategoryResult.category amount paymentMethod
      let notes := extractNotes description
      let overallConfidence := calculateOverallConfidence
        mlMerchantResult.confidence mlCategoryResult.confidence
      { category := mlCategoryResult
        merchant := mlMerchantResult
        paymentMethod := paymentMethod
        isRecurring := isRecurring
        tags := tags
        notes := notes
        confidence := overallConfidence }

/-! ## Concrete instances used in the theorems below -/

/-- The single-row page of the end-to-end scenario. -/
def c4Page : List Frag :=
  [⟨"15-03-2024", 0, 700⟩, ⟨"UPI/NETFLIX/123", 40, 700⟩,
   ⟨"199.00", 200, 700⟩, ⟨"DR", 260, 700⟩]

/-- An arbitrary wall-clock instant for `new Date()`. -/
def nowRef : JSDate := ⟨2024, 4, 1, 12⟩

/-- The fields of a transaction that the end-to-end scenario pins down. -/
structure TxView where
  date : JSDate
  amount : ℚ
  type : TxType
  merchant : String
  category : String
  subcategory : Option String
  isRecurring : Bool
deriving DecidableEq, Repr

/-- Project a transaction onto the checked fields. -/
def txView (t : Transaction) : TxView :=
  ⟨t.date, t.amount, t.type, t.merchant, t.category, t.subcategory,
   t.isRecurring⟩

/-- Fragments for the row-clustering counterexample: pairwise gaps
4, 4 — but 8 between the first and the last. -/
def c2Frags : List Frag := [⟨"A", 0, 100⟩, ⟨"B", 0, 96⟩, ⟨"C", 0, 92⟩]

/-- Two fragments at consecutive-gap distance ≤ 5 (chain relation of
the row grouping loop). -/
def nearYRel (a b : Frag) : Prop := |jsRound b.y - jsRound a.y| ≤ 5

/-- Two adjacent rows break at a rounded-y gap > 5 between the last
fragment of the first and the first fragment of the second. -/
def farRowRel (r r' : List Frag) : Prop :=
  |jsRound ((r'.headD defFrag).y) - jsRound ((r.getLastD defFrag).y)| > 5

instance : DecidableRel nearYRel := fun a b => by
  unfold nearYRel; infer_instance

instance : DecidableRel farRowRel := fun r r' => by
  unfold farRowRel; infer_instance

/-- A mixed two-record page: the first record's header row carries a
`CR` token, the second record's rows carry no `DR`/`CR` token at all. -/
def c9Page : List Frag :=
  [⟨"15-03-2024", 0, 700⟩, ⟨"HELLO", 40, 700⟩, ⟨"500", 200, 700⟩,
   ⟨"CR", 260, 700⟩,
   ⟨"16-03-2024", 0, 650⟩, ⟨"WORLD", 40, 650⟩, ⟨"600", 200, 650⟩]

/-- A service oracle for the enrichment scenario: everything ready, the
preprocessor succeeds, the classifier throws, the merchant extractor
returns a high-confidence (0.9) result. -/
def c6Svc : MLServices :=
  ⟨true, true, true, .ok ⟨fun _ => 0⟩, .error (),
   .ok ⟨"Swiggy", "Swiggy", mkRat 9 10, "ml"⟩⟩

/-- The claimed pointwise relation between an output transaction and
its input record. -/
def convertsTo (t : Transaction) (tx : ParsedTransaction) : Prop :=
  t.amount = tx.amount ∧ t.description = tx.description ∧
  (t.type = TxType.debit ↔ tx.type = TType.DR) ∧ t.isVerified = false

/-! ## Helper lemmas -/

theorem qAdd_eq (a b : ℚ) : qAdd a b = a + b := (Rat.add_def' a b).symm

theorem qSub_eq (a b : ℚ) : qSub a b = a - b := (Rat.sub_def' a b).symm

theorem qMul_eq (a b : ℚ) : qMul a b = a * b := by
  rw [qMul, Rat.mul_def, Rat.normalize_eq_mkRat]

theorem qAbs_eq (q : ℚ) : qAbs q = |q| := by
  rcases le_or_lt 0 q with h | h
  · rw [abs_of_nonneg h, qAbs]
    have h2 : ((q.num.natAbs : ℤ)) = q.num := by
      have := Rat.num_nonneg.mpr h
      omega
    calc mkRat (q.num.natAbs : ℤ) q.den = mkRat q.num q.den := by rw [h2]
    _ = q := Rat.mkRat_self q
  · rw [abs_of_neg h, qAbs]
    have hn : q.num < 0 := by
      by_contra hc
      exact absurd (Rat.num_nonneg.mp (by omega)) (not_le.mpr h)
    have h1 : ((q.num.natAbs : ℤ)) = -q.num := by omega
    calc mkRat (q.num.natAbs : ℤ) q.den = mkRat (-q.num) q.den := by rw [h1]
    _ = mkRat (-q).num (-q).den := by rw [Rat.neg_num, Rat.neg_den]
    _ = -q := Rat.mkRat_self _

/-- Lemma: `jsRound` computes `⌊q + 1/2⌋`, i.e. JS `Math.round`. -/
theorem jsRound_eq (q : ℚ) : jsRound q = ⌊q + 1 / 2⌋ := by
  rw [jsRound, qAdd_eq, Rat.mkRat_eq_div]
  norm_num

theorem strLen_pos_ne_empty {s : String} (h : strLen s > 0) : s ≠ "" := by
  intro heq
  subst heq
  simp [strLen] at h

theorem addTag_nodup (l : List String) (t : String) (h : l.Nodup) :
    (addTag l t).Nodup := by
  unfold addTag
  split
  · exact h
  · next hnot => simp [List.nodup_append, h, hnot]

theorem foldl_addTag_nodup (steps : List (Bool × String)) :
    ∀ l : List String, l.Nodup →
      (steps.foldl (fun l step => if step.1 then addTag l step.2 else l) l).Nodup := by
  induction steps with
  | nil => intro l h; simpa using h
  | cons s ss ih =>
    intro l h
    simp only [List.foldl_cons]
    by_cases hs : s.1
    · simpa [hs] using ih (addTag l s.2) (addTag_nodup l s.2 h)
    · simpa [hs] using ih l h

theorem applyTagSteps_nodup (steps : List (Bool × String)) :
    (applyTagSteps steps).Nodup :=
  foldl_addTag_nodup steps [] List.nodup_nil

theorem empty_not_mem_lenFilter (l : List String) :
    "" ∉ l.filter (fun tag => strLen tag > 0) := by
  intro h
  have := (List.mem_filter.mp h).2
  simp [strLen] at this

/-! ## Claim C8 — tags are duplicate-free and contain no empty strings -/

/-- C8: For every description, merchant, category, and optional amount,
the list returned by `generateTags` (in both the strict and the lenient
variant) contains no empty strings and no duplicate entries. -/
theorem generateTags_nodup_no_empty
    (description merchant category : String) (amount : Option ℚ) :
    ((generateTags description merchant category amount).Nodup ∧
      "" ∉ generateTags description merchant category amount) ∧
    ((generateTagsLenient description merchant category amount).Nodup ∧
      "" ∉ generateTagsLenient description merchant category amount) := by
  refine ⟨⟨?_, ?_⟩, ⟨?_, ?_⟩⟩
  · exact (applyTagSteps_nodup _).filter _
  · exact empty_not_mem_lenFilter _
  · exact (applyTagSteps_nodup _).filter _
  · exact empty_not_mem_lenFilter _

/-! ## Claim C7 — categorization always yields a non-empty category and
falls back to `"Others"` -/

/-- C7: For every description, merchant, and amount,
`categorizeTransaction` returns a non-empty category; when no category
rule matches (and, in the lenient variant, the personal-transfer
heuristic also does not fire) the category is exactly `"Others"`. -/
theorem categorizeTransaction_defaults
    (description merchant : String) (amount : ℚ) :
    ((categorizeTransaction description merchant amount
        DEFAULT_CATEGORY_RULES).category ≠ "" ∧
      ((∀ r ∈ DEFAULT_CATEGORY_RULES,
          ruleMatches r (lowerStr description) (lowerStr merchant) amount = false) →
        (categorizeTransaction description merchant amount
          DEFAULT_CATEGORY_RULES).category = "Others")) ∧
    ((categorizeTransactionLenient description merchant amount
        DEFAULT_CATEGORY_RULES_L).category ≠ "" ∧
      ((∀ r ∈ DEFAULT_CATEGORY_RULES_L,
          ruleMatchesL r (lowerStr description) (lowerStr merchant) amount = false) →
        isPersonalTransfer description merchant = false →
        (categorizeTransactionLenient description merchant amount
          DEFAULT_CATEGORY_RULES_L).category = "Others")) := by
  have hne : ∀ r ∈ DEFAULT_CATEGORY_RULES, r.category ≠ "" := by decide
  have hneL : ∀ r ∈ DEFAULT_CATEGORY_RULES_L, r.category ≠ "" := by decide
  constructor
  · constructor
    · unfold categorizeTransaction
      cases hf : DEFAULT_CATEGORY_RULES.find?
          (fun rule => ruleMatches rule (lowerStr description) (lowerStr merchant) amount) with
      | none => simp [hf]
      | some rule =>
        simp only [hf]
        exact hne rule (List.mem_of_find?_eq_some hf)
    · intro hall
      unfold categorizeTransaction
      have : DEFAULT_CATEGORY_RULES.find?
          (fun rule => ruleMatches rule (lowerStr description) (lowerStr merchant) amount) = none := by
        rw [List.find?_eq_none]
        intro r hr
        simp [hall r hr]
      simp [this]
  · constructor
    · unfold categorizeTransactionLenient
      cases hf : DEFAULT_CATEGORY_RULES_L.find?
          (fun rule => ruleMatchesL rule (lowerStr description) (lowerStr merchant) amount) with
      | none =>
        simp only [hf]
        split <;> simp
      | some rule =>
        simp only [hf]
        exact hneL rule (List.mem_of_find?_eq_some hf)
    · intro hall hpers
      unfold categorizeTransactionLenient
      have : DEFAULT_CATEGORY_RULES_L.find?
          (fun rule => ruleMatchesL rule (lowerStr description) (lowerStr merchant) amount) = none := by
        rw [List.find?_eq_none]
        intro r hr
        simp [hall r hr]
      simp [this, hpers]

/-- Witness for C7 at a concrete input matching no rule and failing the
personal-transfer heuristic (the `"@"` in the merchant). -/
theorem categorizeTransaction_defaults_witness :
    (categorizeTransaction "qqq" "@@@@" 1 DEFAULT_CATEGORY_RULES).category =
      "Others" ∧
    (categorizeTransactionLenient "qqq" "@@@@" 1
        DEFAULT_CATEGORY_RULES_L).category = "Others" :=
  ⟨((categorizeTransaction_defaults "qqq" "@@@@" 1).1).2 (by decide),
   ((categorizeTransaction_defaults "qqq" "@@@@" 1).2).2 (by decide) (by decide)⟩

/-! ## Claim C3 — date parsing -/

/-- C3: `parseDate` maps `"15-03-2024"` and `"15/03/2024"` to the same
calendar date (15 March 2024 at noon UTC) and throws an invalid-date
error on `"32-01-2024"`, `"00-13-2024"`, `"01-01-1899"`; in general,
for numeric parts it throws exactly when day/month/year fall outside
1–31 / 1–12 / ≥ 1900 or the calendar round-trip fails (day exceeding
the month length), and otherwise returns the date at noon UTC. -/
theorem parseDate_spec :
    parseDate "15-03-2024" = .ok ⟨2024, 3, 15, 12⟩ ∧
    parseDate "15/03/2024" = .ok ⟨2024, 3, 15, 12⟩ ∧
    parseDate "32-01-2024" = .error "Invalid date format: 32-01-2024" ∧
    parseDate "00-13-2024" = .error "Invalid date format: 00-13-2024" ∧
    parseDate "01-01-1899" = .error "Invalid date format: 01-01-1899" ∧
    ∀ (s : String) (d m y : ℤ),
      parseDateParts s (some d) (some m) (some y) =
        if 1 ≤ d ∧ d ≤ 31 ∧ 1 ≤ m ∧ m ≤ 12 ∧ 1900 ≤ y ∧ d ≤ daysInMonth y m
        then .ok ⟨y, m, d, 12⟩
        else .error s!"Invalid date format: {s}" := by
  refine ⟨rfl, rfl, rfl, rfl, rfl, ?_⟩
  intro s d m y
  by_cases hA : d = 0 ∨ m = 0 ∨ y = 0 ∨ d < 1 ∨ d > 31 ∨ m < 1 ∨ m > 12 ∨ y < 1900
  · have hC : ¬(1 ≤ d ∧ d ≤ 31 ∧ 1 ≤ m ∧ m ≤ 12 ∧ 1900 ≤ y ∧
        d ≤ daysInMonth y m) := by omega
    simp only [parseDateParts]
    rw [if_pos hA, if_neg hC]
  · by_cases hd : d ≤ daysInMonth y m
    · have hC : 1 ≤ d ∧ d ≤ 31 ∧ 1 ≤ m ∧ m ≤ 12 ∧ 1900 ≤ y ∧
          d ≤ daysInMonth y m := by
        refine ⟨?_, ?_, ?_, ?_, ?_, hd⟩ <;> omega
      simp only [parseDateParts, jsDateUTC]
      rw [if_neg hA, if_pos hd, if_neg (by simp), if_pos hC]
    · have hC : ¬(1 ≤ d ∧ d ≤ 31 ∧ 1 ≤ m ∧ m ≤ 12 ∧ 1900 ≤ y ∧
          d ≤ daysInMonth y m) := fun h => hd h.2.2.2.2.2
      simp only [parseDateParts, jsDateUTC]
      by_cases hm : m = 12
      · rw [if_neg hA, if_neg hd, if_pos hm,
          if_pos (by right; right; simp), if_neg hC]
      · rw [if_neg hA, if_neg hd, if_neg hm,
          if_pos (by right; left; simp), if_neg hC]

/-! ## Claim C5 — confidence fusion -/

/-- C5: For every pair of component confidences (whose scores, as all
confidences produced by `createMLConfidence`, lie in `[0, 1]`), the
fused score is `merchant × 0.4 + category × 0.6` and the fused source
is `ml` iff both components are `ml`, `rules` iff both are `rules`, and
`hybrid` otherwise. -/
theorem calculateOverallConfidence_spec (m c : MLConfidence)
    (hm0 : 0 ≤ m.score) (hm1 : m.score ≤ 1)
    (hc0 : 0 ≤ c.score) (hc1 : c.score ≤ 1) :
    (calculateOverallConfidence m c).score =
      m.score * (4 / 10) + c.score * (6 / 10) ∧
    ((calculateOverallConfidence m c).source = .ml ↔
      (m.source = .ml ∧ c.source = .ml)) ∧
    ((calculateOverallConfidence m c).source = .rules ↔
      (m.source = .rules ∧ c.source = .rules)) ∧
    ((calculateOverallConfidence m c).source = .hybrid ↔
      (¬(m.source = .ml ∧ c.source = .ml) ∧
       ¬(m.source = .rules ∧ c.source = .rules))) := by
  unfold calculateOverallConfidence createMLConfidence
  refine ⟨?_, ?_⟩
  · have hlo : 0 ≤ m.score * (4 / 10) + c.score * (6 / 10) := by positivity
    have hhi : m.score * (4 / 10) + c.score * (6 / 10) ≤ 1 := by nlinarith
    simp only
    rw [min_eq_right hhi, max_eq_right hlo]
  · cases hms : m.source <;> cases hcs : c.source <;> simp

/-- Witness for C5 at the spec's fusion scenario: merchant 0.9 from
`ml`, category 0.5 from `rules` fuse to score 0.66 with source
`hybrid`. -/
theorem calculateOverallConfidence_witness :
    (calculateOverallConfidence ⟨9 / 10, .ml⟩ ⟨1 / 2, .rules⟩).score =
      (9 / 10 : ℚ) * (4 / 10) + (1 / 2 : ℚ) * (6 / 10) ∧
    ((calculateOverallConfidence ⟨9 / 10, .ml⟩ ⟨1 / 2, .rules⟩).source = .hybrid ↔
      (¬((.ml : MLSource) = .ml ∧ (.rules : MLSource) = .ml) ∧
       ¬((.ml : MLSource) = .rules ∧ (.rules : MLSource) = .rules))) :=
  ⟨(calculateOverallConfidence_spec ⟨9 / 10, .ml⟩ ⟨1 / 2, .rules⟩
      (by norm_num) (by norm_num) (by norm_num) (by norm_num)).1,
   (calculateOverallConfidence_spec ⟨9 / 10, .ml⟩ ⟨1 / 2, .rules⟩
      (by norm_num) (by norm_num) (by norm_num) (by norm_num)).2.2.2⟩

/-! ## Claim C4 — end-to-end scenario -/

/-- C4: The page whose only row is
`["15-03-2024" @ x=0, "UPI/NETFLIX/123" @ x=40, "199.00" @ x=200,
"DR" @ x=260]` yields, through segmentation and rule-based conversion,
exactly one transaction with date 2024-03-15, amount 199.00, type
debit, merchant Netflix, category Entertainment / Streaming Services,
and `isRecurring = true`. -/
theorem c4_end_to_end :
    (convertToTransactionInterface (extractTransactionsFromPage c4Page)
        "123456" "ICICI" nowRef).map (fun l => l.map txView) =
    .ok [⟨⟨2024, 3, 15, 12⟩, 199, TxType.debit, "Netflix",
          "Entertainment", some "Streaming Services", true⟩] := by
  decide

/-! ## Claim C10 — conversion preserves length, order and core fields -/

/-- Pointwise correctness of the conversion loop, for any starting
index, whenever it returns normally. -/
theorem convertGo_forall₂ (accountNumber bankName : String) (now : JSDate) :
    ∀ (txs : List ParsedTransaction) (i : ℕ) (l : List Transaction),
      convertGo accountNumber bankName now i txs = .ok l →
      List.Forall₂ convertsTo l txs := by
  intro txs
  induction txs with
  | nil =>
    intro i l h
    simp only [convertGo] at h
    cases h
    exact List.Forall₂.nil
  | cons tx rest ih =>
    intro i l h
    simp only [convertGo] at h
    cases hone : convertOne accountNumber bankName now i tx with
    | error e => rw [hone] at h; cases h
    | ok t =>
      rw [hone] at h
      cases hrest : convertGo accountNumber bankName now (i + 1) rest with
      | error e => rw [hrest] at h; cases h
      | ok ts =>
        rw [hrest] at h
        cases h
        refine List.Forall₂.cons ?_ (ih (i + 1) ts hrest)
        unfold convertOne at hone
        cases hd : parseDate tx.date with
        | error e => rw [hd] at hone; cases hone
        | ok date =>
          rw [hd] at hone
          cases hone
          refine ⟨rfl, rfl, ?_, rfl⟩
          cases htt : tx.type <;> simp [htt]

/-- C10 (amended): whenever `convertToTransactionInterface` returns a
list (i.e. every date parses), that list has the same length as the
input, in the same order, and position-wise the output's amount and
description equal the input's, the type is `debit` iff the input type
is `DR`, and `isVerified` is `false`.  (A record whose date string does
not parse makes the whole call throw instead — see the
counterexample.) -/
theorem convertToTransactionInterface_spec
    (txs : List ParsedTransaction) (accountNumber bankName : String)
    (now : JSDate) (l : List Transaction)
    (h : convertToTransactionInterface txs accountNumber bankName now = .ok l) :
    l.length = txs.length ∧ List.Forall₂ convertsTo l txs := by
  have hf := convertGo_forall₂ accountNumber bankName now txs 0 l h
  exact ⟨hf.length_eq, hf⟩

/-- Counterexample to C10 as stated: `"99-13-2024"` matches the
segmenter's date pattern, so a record carrying it can reach the
converter, where `parseDate` throws and no list at all is returned. -/
theorem convertToTransactionInterface_cex :
    convertToTransactionInterface [⟨"99-13-2024", "desc x", 100, .DR⟩]
        "1" "ICICI" nowRef = .error "Invalid date format: 99-13-2024" ∧
    datePattern "99-13-2024" = true ∧
    ∀ l : List Transaction,
      convertToTransactionInterface [⟨"99-13-2024", "desc x", 100, .DR⟩]
        "1" "ICICI" nowRef ≠ .ok l := by
  refine ⟨by decide, by decide, ?_⟩
  intro l h
  rw [show convertToTransactionInterface [⟨"99-13-2024", "desc x", 100, .DR⟩]
      "1" "ICICI" nowRef = .error "Invalid date format: 99-13-2024" from by decide] at h
  cases h

/-- Witness for the amended C10 at a concrete one-element list. -/
theorem convertToTransactionInterface_spec_witness :
    ([(⟨"icici_1_15032024_0", ⟨2024, 3, 15, 12⟩, 5, "ab", TxType.credit,
        "Others", none, "Unknown", "1", "UPI", false,
        ["others", "small-amount"], none, false, nowRef, nowRef⟩ :
        Transaction)].length = 1 ∧
     List.Forall₂ convertsTo
       [⟨"icici_1_15032024_0", ⟨2024, 3, 15, 12⟩, 5, "ab", TxType.credit,
         "Others", none, "Unknown", "1", "UPI", false,
         ["others", "small-amount"], none, false, nowRef, nowRef⟩]
       [⟨"15-03-2024", "ab", 5, TType.CR⟩]) :=
  convertToTransactionInterface_spec [⟨"15-03-2024", "ab", 5, TType.CR⟩]
    "1" "ICICI" nowRef _ (by decide)

/-! ## Segmenter lemmas (for C1, C2, C9) -/

theorem finalizeTx_mem {c : OpenTx} {t : ParsedTransaction}
    (ht : t ∈ finalizeTx c) :
    t.date = c.date ∧ t.amount ≠ 0 ∧ t.description ≠ "" ∧
      t.type = c.type.getD TType.DR := by
  unfold finalizeTx at ht
  cases ha : c.amount with
  | none => simp only [ha] at ht; cases ht
  | some a =>
    simp only [ha] at ht
    split at ht
    · next hcond =>
      split at ht
      · next hlen =>
        rcases List.mem_singleton.mp ht with rfl
        exact ⟨rfl, hcond.2, strLen_pos_ne_empty hlen, rfl⟩
      · cases ht
    · cases ht

theorem scanHeader_date (rt : List String) (di : ℕ) :
    (scanHeader rt di).date = rt.getD di "" := rfl

theorem findDateIdx_getD :
    ∀ (l : List String) (i : ℕ), findDateIdx l = some i →
      datePattern (l.getD i "") = true := by
  intro l
  induction l with
  | nil => intro i h; cases h
  | cons s rest ih =>
    intro i h
    unfold findDateIdx at h
    split at h
    · next hs => cases h; simpa using hs
    · next hs =>
      rcases Option.map_eq_some'.mp h with ⟨j, hj, rfl⟩
      simpa using ih j hj

theorem contScanStep_date (st : OpenTx) (text : String) :
    (contScanStep st text).date = st.date := by
  unfold contScanStep
  split
  · rfl
  · split
    · rfl
    · split <;> rfl

theorem contScan_date :
    ∀ (rt : List String) (c : OpenTx), (contScan c rt).date = c.date := by
  intro rt
  induction rt with
  | nil => intro c; rfl
  | cons s rest ih =>
    intro c
    show (contScan (contScanStep c s) rest).date = c.date
    rw [ih, contScanStep_date]

theorem contScanStep_type (st : OpenTx) (text : String)
    (h : typePattern text = false) :
    (contScanStep st text).type = st.type := by
  unfold contScanStep
  rw [h]
  simp only [Bool.false_and, Bool.false_eq_true, if_false]
  split
  · rfl
  · split <;> rfl

theorem contScan_type :
    ∀ (rt : List String) (c : OpenTx),
      (∀ s ∈ rt, typePattern s = false) → (contScan c rt).type = c.type := by
  intro rt
  induction rt with
  | nil => intro c _; rfl
  | cons s rest ih =>
    intro c h
    show (contScan (contScanStep c s) rest).type = c.type
    rw [ih _ (fun x hx => h x (List.mem_cons_of_mem _ hx)),
      contScanStep_type _ _ (h s (List.mem_cons_self _ _))]

theorem headerScanAux_type (di : ℕ) :
    ∀ (rt : List String) (i : ℕ)
      (st : List String × Option ℚ × Option TType),
      (∀ s ∈ rt, typePattern s = false) → st.2.2 = none →
      (headerScanAux di i rt st).2.2 = none := by
  intro rt
  induction rt with
  | nil => intro i st _ h2; exact h2
  | cons s rest ih =>
    intro i st h1 h2
    obtain ⟨parts, amount, ty⟩ := st
    simp only at h2
    subst h2
    have hs := h1 s (List.mem_cons_self _ _)
    simp only [headerScanAux]
    apply ih (i + 1) _ (fun x hx => h1 x (List.mem_cons_of_mem _ hx))
    by_cases hdi : i = di
    · rw [if_pos hdi]
    · rw [if_neg hdi, hs]
      simp only [Bool.false_eq_true, if_false]
      split
      · rfl
      · split <;> rfl

theorem scanHeader_type (rt : List String) (di : ℕ)
    (h : ∀ s ∈ rt, typePattern s = false) :
    (scanHeader rt di).type = none :=
  headerScanAux_type di rt 0 ([], none, none) h rfl

/-- The two soundness facts of C1, by induction over the row loop. -/
theorem segmentRows_sound :
    ∀ (rts : List (List String)) (cur : Option OpenTx),
      (∀ c, cur = some c → datePattern c.date = true) →
      ∀ t ∈ segmentRows rts cur,
        datePattern t.date = true ∧ t.amount ≠ 0 ∧ t.description ≠ "" := by
  intro rts
  induction rts with
  | nil =>
    intro cur hinv t ht
    simp only [segmentRows] at ht
    cases cur with
    | none => cases ht
    | some c =>
      obtain ⟨hd, ha, hde, _⟩ := finalizeTx_mem ht
      exact ⟨hd ▸ hinv c rfl, ha, hde⟩
  | cons rt rest ih =>
    intro cur hinv t ht
    simp only [segmentRows] at ht
    split at ht
    · exact ih cur hinv t ht
    · cases hf : findDateIdx rt with
      | some di =>
        simp only [hf] at ht
        rcases List.mem_append.mp ht with h1 | h2
        · cases cur with
          | none => cases h1
          | some c =>
            obtain ⟨hd, ha, hde, _⟩ := finalizeTx_mem h1
            exact ⟨hd ▸ hinv c rfl, ha, hde⟩
        · refine ih _ ?_ t h2
          intro c' hc'
          cases hc'
          rw [scanHeader_date]
          exact findDateIdx_getD rt di hf
      | none =>
        simp only [hf] at ht
        cases cur with
        | none => exact ih none (fun c hc => by cases hc) t ht
        | some c =>
          refine ih _ ?_ t ht
          intro c' hc'
          cases hc'
          rw [contScan_date]
          exact hinv c rfl

/-- Folding continuation-row scans over rows without a `DR`/`CR` token
leaves the record's type unset. -/
theorem foldl_contScan_type :
    ∀ (cs : List (List String)) (c : OpenTx),
      (∀ rt ∈ cs, ∀ s ∈ rt, typePattern s = false) → c.type = none →
      (cs.foldl contScan c).type = none := by
  intro cs
  induction cs with
  | nil => intro c _ h2; exact h2
  | cons rt rest ih =>
    intro c h1 h2
    simp only [List.foldl_cons]
    refine ih (contScan c rt) (fun x hx => h1 x (List.mem_cons_of_mem _ hx)) ?_
    rw [contScan_type rt c (h1 rt (List.mem_cons_self _ _))]
    exact h2

/-- Record provenance of the row loop: every emitted transaction is
finalized from the rows of one record — either the record already open
on entry, extended by the leading date-free rows, or a record opened at
a date-anchored row `h` inside the row list and extended by exactly the
date-free rows `cs` that follow it, the block being closed by the next
date-anchored row or the end of the list. -/
theorem segmentRows_records :
    ∀ (rts : List (List String)) (cur : Option OpenTx),
      ∀ t ∈ segmentRows rts cur,
        (∃ c cs rest, cur = some c ∧ rts = cs ++ rest ∧
          (∀ rt ∈ cs, findDateIdx rt = none) ∧
          (rest = [] ∨ ∃ r rest' dj, rest = r :: rest' ∧ findDateIdx r = some dj) ∧
          t ∈ finalizeTx (cs.foldl contScan c)) ∨
        (∃ pre h di cs rest, rts = pre ++ h :: (cs ++ rest) ∧
          findDateIdx h = some di ∧
          (∀ rt ∈ cs, findDateIdx rt = none) ∧
          (rest = [] ∨ ∃ r rest' dj, rest = r :: rest' ∧ findDateIdx r = some dj) ∧
          t ∈ finalizeTx (cs.foldl contScan (scanHeader h di))) := by
  intro rts
  induction rts with
  | nil =>
    intro cur t ht
    simp only [segmentRows] at ht
    cases cur with
    | none => cases ht
    | some c =>
      left
      refine ⟨c, [], [], rfl, rfl, ?_, Or.inl rfl, ht⟩
      simp
  | cons rt rest ih =>
    intro cur t ht
    simp only [segmentRows] at ht
    split at ht
    · next hemp =>
      have hrt : rt = [] := List.isEmpty_iff.mp hemp
      subst hrt
      rcases ih cur t ht with
        ⟨c, cs, rest2, hc, hsplit, hnod, hclose, hmem⟩ |
        ⟨pre, h, di, cs, rest2, hsplit, hdate, hnod, hclose, hmem⟩
      · left
        refine ⟨c, [] :: cs, rest2, hc, ?_, ?_, hclose, hmem⟩
        · simp [hsplit]
        · intro x hx
          rcases List.mem_cons.mp hx with rfl | hx'
          · rfl
          · exact hnod x hx'
      · right
        exact ⟨[] :: pre, h, di, cs, rest2, by simp [hsplit], hdate, hnod,
          hclose, hmem⟩
    · cases hf : findDateIdx rt with
      | some di =>
        simp only [hf] at ht
        rcases List.mem_append.mp ht with h1 | h2
        · cases cur with
          | none => cases h1
          | some c =>
            left
            refine ⟨c, [], rt :: rest, rfl, rfl, ?_,
              Or.inr ⟨rt, rest, di, rfl, hf⟩, h1⟩
            simp
        · rcases ih _ t h2 with
            ⟨c', cs, rest2, hc', hsplit, hnod, hclose, hmem⟩ |
            ⟨pre, h, dj, cs, rest2, hsplit, hdate, hnod, hclose, hmem⟩
          · injection hc' with hc''
            subst hc''
            right
            exact ⟨[], rt, di, cs, rest2, by simp [hsplit], hf, hnod, hclose,
              hmem⟩
          · right
            exact ⟨rt :: pre, h, dj, cs, rest2, by simp [hsplit], hdate, hnod,
              hclose, hmem⟩
      | none =>
        simp only [hf] at ht
        cases cur with
        | some c =>
          rcases ih _ t ht with
            ⟨c', cs, rest2, hc', hsplit, hnod, hclose, hmem⟩ |
            ⟨pre, h, dj, cs, rest2, hsplit, hdate, hnod, hclose, hmem⟩
          · injection hc' with hc''
            subst hc''
            left
            refine ⟨c, rt :: cs, rest2, rfl, ?_, ?_, hclose, hmem⟩
            · simp [hsplit]
            · intro x hx
              rcases List.mem_cons.mp hx with rfl | hx'
              · exact hf
              · exact hnod x hx'
          · right
            exact ⟨rt :: pre, h, dj, cs, rest2, by simp [hsplit], hdate, hnod,
              hclose, hmem⟩
        | none =>
          rcases ih none t ht with
            ⟨c', cs, rest2, hc', _⟩ |
            ⟨pre, h, dj, cs, rest2, hsplit, hdate, hnod, hclose, hmem⟩
          · cases hc'
          · right
            exact ⟨rt :: pre, h, dj, cs, rest2, by simp [hsplit], hdate, hnod,
              hclose, hmem⟩

theorem mem_insertSorted :
    ∀ (l : List Frag) (f a : Frag), a ∈ insertSorted f l ↔ a = f ∨ a ∈ l := by
  intro l f
  induction l with
  | nil => intro a; simp [insertSorted]
  | cons x xs ih =>
    intro a
    unfold insertSorted
    split
    · simp only [List.mem_cons, ih]
      tauto
    · simp only [List.mem_cons]

theorem mem_sortFrags (items : List Frag) (a : Frag) :
    a ∈ sortFrags items ↔ a ∈ items := by
  have haux : ∀ (l acc : List Frag),
      a ∈ l.foldl (fun acc f => insertSorted f acc) acc ↔ a ∈ acc ∨ a ∈ l := by
    intro l
    induction l with
    | nil => intro acc; simp
    | cons x xs ih =>
      intro acc
      simp only [List.foldl_cons, ih, mem_insertSorted, List.mem_cons]
      tauto
  simpa using haux items []

theorem groupLoop_join :
    ∀ (rest : List Frag) (rows : List (List Frag)) (cur : List Frag)
      (lastY : ℤ),
      (groupLoop rest rows cur lastY).flatten = rows.flatten ++ cur ++ rest := by
  intro rest
  induction rest with
  | nil =>
    intro rows cur lastY
    unfold groupLoop
    split
    · next hemp => simp [List.isEmpty_iff.mp hemp]
    · simp
  | cons f rest' ih =>
    intro rows cur lastY
    simp only [groupLoop]
    split
    · rw [ih]
      simp
    · split
      · next hemp =>
        rw [ih]
        simp [List.isEmpty_iff.mp hemp]
      · rw [ih]
        simp

theorem groupRows_join (l : List Frag) : (groupRows l).flatten = l := by
  have := groupLoop_join l [] [] (-1)
  simpa [groupRows] using this

/-! ## Claim C1 — emitted records are complete -/

/-- C1: Every raw transaction record emitted by the transaction
segmenter carries a date token that matched the date pattern, a truthy
(non-zero, hence non-null) amount, and a non-empty cleaned
description; a record missing the date or the amount is never pushed. -/
theorem extractTransactionsFromPage_complete (items : List Frag) :
    ∀ t ∈ extractTransactionsFromPage items,
      datePattern t.date = true ∧ t.amount ≠ 0 ∧ t.description ≠ "" :=
  fun t ht => segmentRows_sound _ none (fun _ hc => by cases hc) t ht

/-- Witness for C1 on the concrete one-row page. -/
theorem extractTransactionsFromPage_complete_witness :
    datePattern (⟨"15-03-2024", "UPI/NETFLIX/123", 199, .DR⟩ :
        ParsedTransaction).date = true ∧
    (⟨"15-03-2024", "UPI/NETFLIX/123", 199, .DR⟩ :
        ParsedTransaction).amount ≠ 0 ∧
    (⟨"15-03-2024", "UPI/NETFLIX/123", 199, .DR⟩ :
        ParsedTransaction).description ≠ "" :=
  extractTransactionsFromPage_complete c4Page
    ⟨"15-03-2024", "UPI/NETFLIX/123", 199, .DR⟩ (by decide)

/-! ## Claim C9 — unmarked records default to debit -/

/-- C9: Every record emitted by `extractTransactionsFromPage` arises
from its own contiguous block of the page's reconstructed row list — a
date-anchored header row `h` plus exactly the date-free continuation
rows `cs` that follow it, the block being closed by the next
date-anchored row or the end of the page — and if no token of *that
record's own rows* (`h` and `cs`) matches the `DR|CR` pattern, the
record is emitted with type `DR`, regardless of `DR`/`CR` tokens on
other records' rows of the same page. -/
theorem extractTransactionsFromPage_default_DR :
    ∀ (items : List Frag), ∀ t ∈ extractTransactionsFromPage items,
      ∃ (pre : List (List String)) (h : List String)
        (cs rest : List (List String)) (di : ℕ),
        (groupRows (sortFrags items)).map rowTextOf =
          pre ++ h :: (cs ++ rest) ∧
        findDateIdx h = some di ∧
        (∀ rt ∈ cs, findDateIdx rt = none) ∧
        (rest = [] ∨
          ∃ r rest' dj, rest = r :: rest' ∧ findDateIdx r = some dj) ∧
        t ∈ finalizeTx (cs.foldl contScan (scanHeader h di)) ∧
        ((∀ s ∈ h, typePattern s = false) →
         (∀ rt ∈ cs, ∀ s ∈ rt, typePattern s = false) →
         t.type = TType.DR) := by
  intro items t ht
  rcases segmentRows_records _ none t ht with ⟨c, _, _, hc, _⟩ |
    ⟨pre, h, di, cs, rest, hsplit, hdate, hnod, hclose, hmem⟩
  · cases hc
  · refine ⟨pre, h, cs, rest, di, hsplit, hdate, hnod, hclose, hmem, ?_⟩
    intro hh hcs
    have hty : (cs.foldl contScan (scanHeader h di)).type = none :=
      foldl_contScan_type cs _ hcs (scanHeader_type h di hh)
    obtain ⟨_, _, _, htype⟩ := finalizeTx_mem hmem
    rw [htype, hty]
    rfl

/-- Witness for C9 on a mixed page: the first record's rows carry a
`CR` token, the second record's rows carry none, and the second record
is emitted as `DR`. -/
theorem extractTransactionsFromPage_default_DR_witness :
    ∃ (pre : List (List String)) (h : List String)
      (cs rest : List (List String)) (di : ℕ),
      (groupRows (sortFrags c9Page)).map rowTextOf =
        pre ++ h :: (cs ++ rest) ∧
      findDateIdx h = some di ∧
      (∀ rt ∈ cs, findDateIdx rt = none) ∧
      (rest = [] ∨
        ∃ r rest' dj, rest = r :: rest' ∧ findDateIdx r = some dj) ∧
      (⟨"16-03-2024", "WORLD", 600, .DR⟩ : ParsedTransaction) ∈
        finalizeTx (cs.foldl contScan (scanHeader h di)) ∧
      ((∀ s ∈ h, typePattern s = false) →
       (∀ rt ∈ cs, ∀ s ∈ rt, typePattern s = false) →
       (⟨"16-03-2024", "WORLD", 600, .DR⟩ : ParsedTransaction).type =
         TType.DR) :=
  extractTransactionsFromPage_default_DR c9Page
    ⟨"16-03-2024", "WORLD", 600, .DR⟩ (by decide)

/-! ## Claim C2 — row clustering -/

theorem headD_append_ne_nil {cur : List Frag} (h : cur ≠ []) (f d : Frag) :
    (cur ++ [f]).headD d = cur.headD d := by
  cases cur with
  | nil => exact absurd rfl h
  | cons x xs => rfl

/-- The chain invariant of the grouping loop: every produced row is
non-empty with consecutive rounded-y gaps ≤ 5, and adjacent rows break
at a gap > 5. -/
theorem groupLoop_chain :
    ∀ (rest : List Frag) (rows : List (List Frag)) (cur : List Frag)
      (lastY : ℤ),
      (∀ f ∈ rest, 0 ≤ jsRound f.y) →
      (cur = [] → rows = [] ∧ lastY = -1) →
      (∀ a, cur.getLast? = some a → lastY = jsRound a.y ∧ 0 ≤ lastY) →
      (∀ r ∈ rows, r ≠ [] ∧ List.Chain' nearYRel r) →
      List.Chain' nearYRel cur →
      List.Chain' farRowRel rows →
      (∀ r, rows.getLast? = some r → cur ≠ [] →
        |jsRound ((cur.headD defFrag).y) - jsRound ((r.getLastD defFrag).y)| > 5) →
      (∀ r ∈ groupLoop rest rows cur lastY,
        r ≠ [] ∧ List.Chain' nearYRel r) ∧
      List.Chain' farRowRel (groupLoop rest rows cur lastY) := by
  intro rest
  induction rest with
  | nil =>
    intro rows cur lastY _ hc _ hrows hcur hbrows hb2
    unfold groupLoop
    split
    · exact ⟨hrows, hbrows⟩
    · next hemp =>
      have hcur_ne : cur ≠ [] := fun h => hemp (by simp [h])
      constructor
      · intro r hr
        rcases List.mem_append.mp hr with h1 | h1
        · exact hrows r h1
        · rcases List.mem_singleton.mp h1 with rfl
          exact ⟨hcur_ne, hcur⟩
      · refine List.chain'_append.mpr ⟨hbrows, List.chain'_singleton cur, ?_⟩
        intro x hx yy hyy
        simp only [List.head?_cons, Option.mem_def, Option.some.injEq] at hyy
        subst hyy
        exact hb2 x hx hcur_ne
  | cons f rest' ih =>
    intro rows cur lastY hrest hc hlast hrows hcur hbrows hb2
    have hy : 0 ≤ jsRound f.y := hrest f (List.mem_cons_self _ _)
    have hrest' : ∀ g ∈ rest', 0 ≤ jsRound g.y :=
      fun g hg => hrest g (List.mem_cons_of_mem _ hg)
    simp only [groupLoop]
    split
    · next hcond =>
      -- the incoming fragment joins the current row
      apply ih
      · exact hrest'
      · intro habs; simp at habs
      · intro a ha
        rw [List.getLast?_concat] at ha
        cases ha
        exact ⟨rfl, hy⟩
      · exact hrows
      · refine List.chain'_append.mpr ⟨hcur, List.chain'_singleton f, ?_⟩
        intro x hx yy hyy
        simp only [List.head?_cons, Option.mem_def, Option.some.injEq] at hyy
        subst hyy
        obtain ⟨hly, hge⟩ := hlast x hx
        have hne : lastY ≠ -1 := by omega
        rcases hcond with h | h
        · exact absurd h hne
        · unfold nearYRel
          rw [← hly]
          exact h
      · exact hbrows
      · intro r hr hne
        cases cur with
        | nil =>
          obtain ⟨hrnil, _⟩ := hc rfl
          rw [hrnil] at hr
          cases hr
        | cons c0 cs =>
          exact hb2 r hr (by simp)
    · next hcond =>
      -- tolerance breach: close the current row, start a fresh one
      have hcur_ne : cur ≠ [] := by
        intro habs
        obtain ⟨_, hl⟩ := hc habs
        exact hcond (Or.inl hl)
      have hrows_ne : cur.isEmpty = false := by
        cases cur with
        | nil => exact absurd rfl hcur_ne
        | cons _ _ => rfl
      rw [hrows_ne]
      simp only [Bool.false_eq_true, if_false]
      obtain ⟨a, ha⟩ : ∃ a, cur.getLast? = some a :=
        Option.isSome_iff_exists.mp (List.getLast?_isSome.mpr hcur_ne)
      obtain ⟨hly, hge⟩ := hlast a ha
      have hgap : |jsRound f.y - lastY| > 5 := by
        rcases not_or.mp hcond with ⟨_, h2⟩
        omega
      apply ih
      · exact hrest'
      · intro habs; cases habs
      · intro b hb
        simp only [List.getLast?_singleton, Option.some.injEq] at hb
        subst hb
        exact ⟨rfl, hy⟩
      · intro r hr
        rcases List.mem_append.mp hr with h1 | h1
        · exact hrows r h1
        · rcases List.mem_singleton.mp h1 with rfl
          exact ⟨hcur_ne, hcur⟩
      · exact List.chain'_singleton f
      · refine List.chain'_append.mpr ⟨hbrows, List.chain'_singleton cur, ?_⟩
        intro x hx yy hyy
        simp only [List.head?_cons, Option.mem_def, Option.some.injEq] at hyy
        subst hyy
        exact hb2 x hx hcur_ne
      · intro r hr _
        rw [List.getLast?_concat] at hr
        cases hr
        simp only [List.headD_cons]
        rw [List.getLastD_eq_getLast?, ha]
        simp only [Option.getD_some]
        rw [← hly]
        exact hgap

/-- C2 (amended): the reconstructed rows partition the processed
fragment sequence into contiguous blocks; inside a row every
consecutive pair of fragments has rounded-y distance ≤ 5, and each new
row starts exactly at a fragment whose rounded-y distance from the
immediately preceding fragment exceeds 5 (for pages with nonnegative
rounded y, i.e. away from the `lastY = -1` sentinel).  Fragments more
than 5 apart can therefore share a row through intermediate
fragments — see the counterexample. -/
theorem groupRows_chain_spec (l : List Frag)
    (h : ∀ f ∈ l, 0 ≤ jsRound f.y) :
    (groupRows l).flatten = l ∧
    (∀ r ∈ groupRows l, r ≠ [] ∧ List.Chain' nearYRel r) ∧
    List.Chain' farRowRel (groupRows l) := by
  have hmain := groupLoop_chain l [] [] (-1) h (fun _ => ⟨rfl, rfl⟩)
    (fun a ha => by cases ha) (fun r hr => by cases hr) List.chain'_nil
    List.chain'_nil (fun r hr => by cases hr)
  exact ⟨groupRows_join l, hmain.1, hmain.2⟩

/-- Counterexample to C2 as stated: fragments at y = 100 and y = 92
(rounded distance 8 > 5) end up in the same row, chained through the
fragment at y = 96. -/
theorem groupRows_cex :
    |jsRound ((100 : ℚ)) - jsRound ((92 : ℚ))| > 5 ∧
    groupRows (sortFrags c2Frags) =
      [[⟨"A", 0, 100⟩, ⟨"B", 0, 96⟩, ⟨"C", 0, 92⟩]] := by
  decide

/-- Witness for the amended C2 on the concrete three-fragment page. -/
theorem groupRows_chain_spec_witness :
    (groupRows c2Frags).flatten = c2Frags ∧
    List.Chain' farRowRel (groupRows c2Frags) :=
  ⟨(groupRows_chain_spec c2Frags (by decide)).1,
   (groupRows_chain_spec c2Frags (by decide)).2.2⟩

/-! ## Claim C6 — enrichment when the classifier throws -/

theorem classifyWithFallback_rules (cfg : MLServiceConfig) (svc : MLServices)
    (description : String) (amount : ℚ) (h : svc.classifyRes = .error ()) :
    (classifyWithFallback cfg svc description amount).confidence.source =
      .rules := by
  simp only [classifyWithFallback, h, ite_self]
  split
  · rfl
  · rfl

theorem overall_source_of_rules (mc cc : MLConfidence)
    (hc : cc.source = .rules) :
    (calculateOverallConfidence mc cc).source = .rules ∨
    (calculateOverallConfidence mc cc).source = .hybrid := by
  unfold calculateOverallConfidence createMLConfidence
  cases hm : mc.source <;> simp [hc, hm]

/-- C6 (amended): if the classifier throws, `enrichTransaction` still
returns a complete enrichment result (the embedding is a total
function — no exception escapes): the category component's confidence
source is `"rules"`, and the overall confidence source is `"rules"` or
`"hybrid"` (it stays `"hybrid"` when the merchant component succeeded
on the ML path — see the counterexample, which refutes the unqualified
`"rules"` of the claim). -/
theorem enrichTransaction_classifier_throws (cfg : MLServiceConfig)
    (svc : MLServices) (description : String) (amount : ℚ) (type : TxType)
    (h : svc.classifyRes = .error ()) :
    (enrichTransaction cfg svc description amount type).category.confidence.source =
      .rules ∧
    ((enrichTransaction cfg svc description amount type).confidence.source =
        .rules ∨
     (enrichTransaction cfg svc description amount type).confidence.source =
        .hybrid) := by
  unfold enrichTransaction
  split
  · exact ⟨rfl, Or.inl rfl⟩
  · cases hp : svc.preprocessRes with
    | error e => simp only [hp]; exact ⟨rfl, Or.inl rfl⟩
    | ok p =>
      simp only [hp]
      exact ⟨classifyWithFallback_rules cfg svc description amount h,
        overall_source_of_rules _ _
          (classifyWithFallback_rules cfg svc description amount h)⟩

/-- Counterexample to C6 as stated: the classifier throws but the ML
merchant extraction succeeds above threshold, so the fused source is
`"hybrid"`, not `"rules"`. -/
theorem enrichTransaction_cex :
    c6Svc.classifyRes = .error () ∧
    (enrichTransaction DEFAULT_ML_CONFIG c6Svc "UPI/SWIGGY/x" 100
        TxType.debit).confidence.source = MLSource.hybrid ∧
    (enrichTransaction DEFAULT_ML_CONFIG c6Svc "UPI/SWIGGY/x" 100
        TxType.debit).confidence.source ≠ MLSource.rules := by
  refine ⟨rfl, ?_, ?_⟩ <;> decide

/-- Witness for the amended C6 at the concrete oracle. -/
theorem enrichTransaction_classifier_throws_witness :
    (enrichTransaction DEFAULT_ML_CONFIG c6Svc "d" 5
        TxType.debit).category.confidence.source = .rules ∧
    ((enrichTransaction DEFAULT_ML_CONFIG c6Svc "d" 5
        TxType.debit).confidence.source = .rules ∨
     (enrichTransaction DEFAULT_ML_CONFIG c6Svc "d" 5
        TxType.debit).confidence.source = .hybrid) :=
  enrichTransaction_classifier_throws DEFAULT_ML_CONFIG c6Svc "d" 5
    TxType.debit rfl

end Zendit
